import Mathlib

/-!
# Mapty workout tracker: a verification development of `script.js`

The script is embedded shallowly.  JavaScript numbers are IEEE-754 binary64
values, modelled exactly by sign, integer significand and binary exponent;
objects are property lists; the controller `App` is a state record and each
of its methods is a function from a state to a state together with the
exception thrown, if any.
-/

namespace Mapty

/-! ## Numbers -/

/-- A JavaScript Number.  `fin neg m e` is the real number `(-1)^neg * m * 2^e`;
the doubles are the values with `m < 2^53` and `-1074 ≤ e ≤ 971`, and
`fin true 0 e` is the negative zero. -/
inductive JSNumber where
  | nan
  | inf (neg : Bool)
  | fin (neg : Bool) (m : ℕ) (e : ℤ)
  deriving DecidableEq

namespace JSNumber

/-- The test `Number.isFinite(x)` on a value that is a Number. -/
def isFinite : JSNumber → Bool
  | fin _ _ _ => true
  | _ => false

/-- The comparison `x > 0`. -/
def gtZero : JSNumber → Bool
  | nan => false
  | inf neg => !neg
  | fin neg m _ => !neg && decide (0 < m)

/-- The pair `(a, b)` of naturals with `a / b = N / D * 2^s`. -/
def scale (N D : ℕ) (s : ℤ) : ℕ × ℕ :=
  if 0 ≤ s then (N * 2 ^ s.toNat, D) else (N, D * 2 ^ (-s).toNat)

/-- Halving count: `log2Aux fuel n` is `⌊log₂ n⌋` once `fuel ≥ n`. -/
def log2Aux : ℕ → ℕ → ℕ
  | 0, _ => 0
  | fuel + 1, n => if n < 2 then 0 else log2Aux fuel (n / 2) + 1

/-- The position of the leading bit of `n`: `⌊log₂ n⌋`, and `0` for `n = 0`. -/
def log2 (n : ℕ) : ℕ := log2Aux n n

/-- The integer `k` with `2^k ≤ N / D < 2^(k+1)`, for positive `N` and `D`. -/
def ilog2Quot (N D : ℕ) : ℤ :=
  let k : ℤ := (log2 N : ℤ) - (log2 D : ℤ)
  let ab := scale N D (-k)
  if ab.2 ≤ ab.1 then k else k - 1

/-- The integer nearest to `a / b`, ties to the even one. -/
def roundHalfEven (a b : ℕ) : ℕ :=
  let q := a / b
  let r := a % b
  if 2 * r < b then q else if b < 2 * r then q + 1 else q + q % 2

/-- The double nearest to `(-1)^neg * N / D * 2^s` (round to nearest, ties to
even, gradual underflow), for `D > 0`.  The significand `n` is rounded at the
exponent `E` of the last place, which leaves it 53 bits, fewer in the subnormal
range; the result overflows to infinity when `n * 2^E` reaches
`2^1024 = 2^53 * 2^971`. -/
def roundQuot (neg : Bool) (N D : ℕ) (s : ℤ) : JSNumber :=
  if N = 0 then fin neg 0 0 else
  let p := ilog2Quot N D + s
  let E := max (p - 52) (-1074)
  let ab := scale N D (s - E)
  let n := roundHalfEven ab.1 ab.2
  if 971 < E ∨ (E = 971 ∧ 2 ^ 53 ≤ n) then inf neg else fin neg n E

/-- The quotient `x / y` of two Numbers. -/
def div : JSNumber → JSNumber → JSNumber
  | nan, _ => nan
  | _, nan => nan
  | inf _, inf _ => nan
  | inf a, fin b _ _ => inf (xor a b)
  | fin a _ _, inf b => fin (xor a b) 0 0
  | fin a m e, fin b m' e' =>
    if m' = 0 then (if m = 0 then nan else inf (xor a b))
    else roundQuot (xor a b) m m' (e - e')

/-- The Number of a natural number literal. -/
def ofNat (n : ℕ) : JSNumber := roundQuot false n 1 0

/-- The Number of the decimal literal `(-1)^neg * digits * 10^exp10`. -/
def ofDecimal (neg : Bool) (digits : ℕ) (exp10 : ℤ) : JSNumber :=
  if 0 ≤ exp10 then roundQuot neg (digits * 10 ^ exp10.toNat) 1 0
  else roundQuot neg digits (10 ^ (-exp10).toNat) 0

end JSNumber

/-! ## Decimal numerals -/

/-- The character of a decimal digit. -/
def digitChar (d : ℕ) : Char := Char.ofNat (48 + d)

/-- Digits of `n`, most significant first, pushed in front of `acc`. -/
def decDigitsAux : ℕ → ℕ → List Char → List Char
  | 0, _, acc => acc
  | fuel + 1, n, acc =>
    if n < 10 then digitChar n :: acc
    else decDigitsAux fuel (n / 10) (digitChar (n % 10) :: acc)

/-- The decimal representation of an integer, as `Number::toString` yields it
for a non-negative integer below `10^21`. -/
def decDigits (n : ℕ) : List Char := decDigitsAux (n + 1) n []

/-- The last `k` characters: `s.slice(-k)`. -/
def sliceLast (k : ℕ) (cs : List Char) : List Char := cs.drop (cs.length - k)

/-! ## Values -/

/-- A `Date`: its time value and the local month and day of the month that
`getMonth()` and `getDate()` report for it. -/
structure JSDate where
  time : ℕ
  month : Fin 12
  day : ℕ
  deriving DecidableEq

/-- A JavaScript value; an object is the list of its own properties in
insertion order. -/
inductive JSValue where
  | undefined
  | null
  | bool (b : Bool)
  | number (x : JSNumber)
  | string (s : String)
  | date (d : JSDate)
  | array (xs : List JSValue)
  | object (props : List (String × JSValue))

/-- The exceptions the script can meet; `leaflet` stands for what is thrown
inside Leaflet when it is given a value that is no position. -/
inductive JSError where
  | typeError
  | syntaxError
  | leaflet
  deriving DecidableEq

/-- The parts of the JavaScript runtime and of Leaflet that the script relies on
and that are taken as given. -/
structure Runtime where
  /-- The text `Number::toString` yields for the finite Number `m * 2^e` when it
  is at least `10^21`. -/
  numberToString : ℕ → ℤ → String
  /-- The text `JSON.stringify` yields for a value. -/
  stringify : JSValue → String
  /-- The text `toUpperCase` yields for a character outside ASCII that is one
  UTF-16 code unit. -/
  toUpperCase : Char → String
  /-- Whether Leaflet throws when it converts to a position a value that is
  neither nullish nor an array of two finite Numbers. -/
  rejectsLatLng : JSValue → Bool
  /-- Whether Leaflet can place a marker or the view at the position it has made
  of such a value. -/
  acceptsLatLng : JSValue → Bool

namespace JSValue

/-- The conversion `ToBoolean`. -/
def truthy : JSValue → Bool
  | undefined => false
  | null => false
  | bool b => b
  | number .nan => false
  | number (.inf _) => true
  | number (.fin _ m _) => decide (m ≠ 0)
  | string s => decide (s ≠ "")
  | _ => true

/-- Whether a property access `v.p` throws: `v` is `null` or `undefined`. -/
def isNullish : JSValue → Bool
  | undefined => true
  | null => true
  | _ => false

/-- The value of `v.key` for a `v` that is not nullish (own properties of
objects; anything else has none of the properties the script reads). -/
def get (v : JSValue) (key : String) : JSValue :=
  match v with
  | object props =>
    match props.find? (fun p => p.1 == key) with
    | some p => p.2
    | none => undefined
  | _ => undefined

/-- The test `v === s` against a string. -/
def strictEqString : JSValue → String → Bool
  | string t, s => t == s
  | _, _ => false

/-- Whether a value is a primitive one: not a `Date`, an array or an object. -/
def isPrimitive : JSValue → Bool
  | date _ => false
  | array _ => false
  | object _ => false
  | _ => true

mutual

/-- Whether `ToString(v)`, which a template literal applies to what it
interpolates, throws a TypeError.  An object is asked for `toString` and then
`valueOf`; the values of this model hold no function, so an own property
`toString` hides the inherited method and no primitive is got.  An array joins
the strings of its elements, `null` and `undefined` giving the empty string. -/
def toStringThrows : JSValue → Bool
  | object props => props.any (fun p => p.1 == "toString")
  | array xs => joinThrows xs
  | _ => false

/-- Whether joining the strings of the elements of an array throws. -/
def joinThrows : List JSValue → Bool
  | [] => false
  | x :: xs => toStringThrows x || joinThrows xs

end

end JSValue

namespace JSNumber

/-- The integer `n` for which `n / 10^f - x` is as close to zero as possible,
the larger one if there are two, for `x = m * 2^e`. -/
def fixedInt (m : ℕ) (e : ℤ) (f : ℕ) : ℕ :=
  if 0 ≤ e then m * 2 ^ e.toNat * 10 ^ f
  else (2 * (m * 10 ^ f) + 2 ^ (-e).toNat) / (2 * 2 ^ (-e).toNat)

/-- The digits of `n` with a point before the last `f` of them, zeros added in
front up to `f + 1` digits. -/
def fixedDigits (n f : ℕ) : List Char :=
  let m := decDigits n
  if f = 0 then m else
  let m := if m.length ≤ f then List.replicate (f + 1 - m.length) '0' ++ m else m
  m.take (m.length - f) ++ '.' :: m.drop (m.length - f)

/-- The test `m * 2^e ≥ 10^21`. -/
def geTenPow21 (m : ℕ) (e : ℤ) : Bool :=
  if 0 ≤ e then decide (10 ^ 21 ≤ m * 2 ^ e.toNat) else decide (10 ^ 21 * 2 ^ (-e).toNat ≤ m)

/-- Evaluating `x.toFixed(f)` for `0 ≤ f ≤ 100` (the script calls it with 2 and 1, so the
RangeError of a digit count out of range cannot arise). -/
def toFixed (rt : Runtime) (f : ℕ) : JSNumber → String
  | nan => "NaN"
  | inf neg => if neg then "-Infinity" else "Infinity"
  | fin neg m e =>
    let s := if neg ∧ m ≠ 0 then "-" else ""
    if geTenPow21 m e then s ++ rt.numberToString m e
    else s ++ String.mk (fixedDigits (fixedInt m e f) f)

end JSNumber

/-! ## The workout classes -/

/-- The table `months`. -/
def months : List String :=
  ["January", "February", "March", "April", "May", "June", "July", "August",
   "September", "October", "November", "December"]

/-- The name `months[d.getMonth()]`. -/
def monthName (d : JSDate) : String := months.getD d.month.val ""

/-- The field initialiser `id = (Date.now() + '').slice(-10)`, for the clock
reading `now` in milliseconds (an integer below `10^21`, which prints as its
decimal digits). -/
def Workout.id (now : ℕ) : String := String.mk (sliceLast 10 (decDigits now))

/-- The fields a `Workout` has once its constructor returns: `date` and `id`
from the initialisers, then `cords`, `distance` and `duration`. -/
def Workout.new (date : JSDate) (now : ℕ) (cords : JSValue)
    (distance duration : JSNumber) : List (String × JSValue) :=
  [("date", .date date), ("id", .string (Workout.id now)), ("cords", cords),
   ("distance", .number distance), ("duration", .number duration)]

/-- The text `type[0].toUpperCase() + type.slice(1)` for a `type` that starts with
`c`, `cs` being the rest.  In ASCII only the letters `a` to `z` change; a
character of two UTF-16 code units is indexed as its first unit, a lone
surrogate, which has no upper case, and the slice brings the second unit back. -/
def capitalize (rt : Runtime) (c : Char) (cs : List Char) : String :=
  if c.toNat < 128 then String.mk (c.toUpper :: cs)
  else if c.toNat < 0x10000 then rt.toUpperCase c ++ String.mk cs
  else String.mk (c :: cs)

/-- Calling `_setDescription`: the text
`${type[0].toUpperCase()}${type.slice(1)} on ${months[month]} ${day}`.
Indexing an empty `type` yields `undefined`, whose `toUpperCase` call throws. -/
def Workout._setDescription (rt : Runtime) (type : String) (date : JSDate) :
    Except JSError String :=
  match type.data with
  | [] => .error .typeError
  | c :: cs =>
    .ok (capitalize rt c cs ++ " on " ++ monthName date ++ " "
      ++ String.mk (decDigits date.day))

/-- Calling `calcPace`: `(duration / distance).toFixed(2)`. -/
def Running.calcPace (rt : Runtime) (distance duration : JSNumber) : String :=
  (duration.div distance).toFixed rt 2

/-- Calling `calcSpeed`: `(distance / (duration / 60)).toFixed(1)`. -/
def Cycling.calcSpeed (rt : Runtime) (distance duration : JSNumber) : String :=
  (distance.div (duration.div (JSNumber.ofNat 60))).toFixed rt 1

/-- Evaluating `new Running(cords, distance, duration, cadence)` when `new Date()` gives
`date` and `Date.now()` gives `now`: the object built, or the exception. -/
def Running.new (rt : Runtime) (date : JSDate) (now : ℕ) (cords : JSValue)
    (distance duration cadence : JSNumber) : Except JSError JSValue := do
  let base := Workout.new date now cords distance duration
  let pace := Running.calcPace rt distance duration
  let description ← Workout._setDescription rt "running" date
  pure (.object (base ++ [("cadence", .number cadence), ("type", .string "running"),
    ("pace", .string pace), ("description", .string description)]))

/-- Evaluating `new Cycling(cords, distance, duration, elevationGain)`, likewise. -/
def Cycling.new (rt : Runtime) (date : JSDate) (now : ℕ) (cords : JSValue)
    (distance duration elevationGain : JSNumber) : Except JSError JSValue := do
  let base := Workout.new date now cords distance duration
  let speed := Cycling.calcSpeed rt distance duration
  let description ← Workout._setDescription rt "cycling" date
  pure (.object (base ++ [("elevationGain", .number elevationGain),
    ("type", .string "cycling"), ("speed", .string speed),
    ("description", .string description)]))

/-! ## `JSON.parse` -/

namespace JSON

/-- JSON white space. -/
def isWs (c : Char) : Bool := c == ' ' || c == '\t' || c == '\n' || c == '\r'

/-- Drops leading white space. -/
def skipWs : List Char → List Char
  | [] => []
  | c :: cs => if isWs c then skipWs cs else c :: cs

/-- The value of a run of decimal digits. -/
def digitsVal (ds : List Char) : ℕ := ds.foldl (fun a c => 10 * a + (c.toNat - 48)) 0

/-- The value of a hexadecimal digit. -/
def hexVal (c : Char) : Option ℕ :=
  if '0' ≤ c ∧ c ≤ '9' then some (c.toNat - 48)
  else if 'a' ≤ c ∧ c ≤ 'f' then some (c.toNat - 87)
  else if 'A' ≤ c ∧ c ≤ 'F' then some (c.toNat - 55)
  else none

/-- The UTF-16 code units of a character. -/
def utf16Units (c : Char) : List ℕ :=
  if c.toNat < 0x10000 then [c.toNat]
  else [0xD800 + (c.toNat - 0x10000) / 0x400, 0xDC00 + (c.toNat - 0x10000) % 0x400]

/-- The characters of a sequence of UTF-16 code units; a surrogate without its
partner, which a `String` cannot hold, is read as U+FFFD. -/
def utf16Decode : List ℕ → List Char
  | [] => []
  | [u] => [if 0xD800 ≤ u ∧ u < 0xE000 then Char.ofNat 0xFFFD else Char.ofNat u]
  | u :: v :: us =>
    if 0xD800 ≤ u ∧ u < 0xDC00 ∧ 0xDC00 ≤ v ∧ v < 0xE000 then
      Char.ofNat (0x10000 + (u - 0xD800) * 0x400 + (v - 0xDC00)) :: utf16Decode us
    else if 0xD800 ≤ u ∧ u < 0xE000 then Char.ofNat 0xFFFD :: utf16Decode (v :: us)
    else Char.ofNat u :: utf16Decode (v :: us)

/-- Reads a string literal after its opening quote; `acc` holds the code units
read so far, last first. -/
def parseString : List Char → List ℕ → Option (String × List Char)
  | [], _ => none
  | '"' :: r, acc => some (String.mk (utf16Decode acc.reverse), r)
  | '\\' :: '"' :: r, acc => parseString r (0x22 :: acc)
  | '\\' :: '\\' :: r, acc => parseString r (0x5C :: acc)
  | '\\' :: '/' :: r, acc => parseString r (0x2F :: acc)
  | '\\' :: 'b' :: r, acc => parseString r (0x08 :: acc)
  | '\\' :: 'f' :: r, acc => parseString r (0x0C :: acc)
  | '\\' :: 'n' :: r, acc => parseString r (0x0A :: acc)
  | '\\' :: 'r' :: r, acc => parseString r (0x0D :: acc)
  | '\\' :: 't' :: r, acc => parseString r (0x09 :: acc)
  | '\\' :: 'u' :: a :: b :: c :: d :: r, acc =>
    match hexVal a, hexVal b, hexVal c, hexVal d with
    | some a, some b, some c, some d =>
      parseString r ((((a * 16 + b) * 16 + c) * 16 + d) :: acc)
    | _, _, _, _ => none
  | '\\' :: _, _ => none
  | c :: r, acc => if c.toNat < 0x20 then none else parseString r ((utf16Units c).reverse ++ acc)

/-- Reads the digits of an exponent part, if there is one: the exponent and
the rest, or `none` for an `e` without digits. -/
def parseExponent (cs : List Char) : Option (ℤ × List Char) :=
  let digits (neg : Bool) (r : List Char) : Option (ℤ × List Char) :=
    let ds := r.span Char.isDigit
    if ds.1 = [] then none
    else some ((if neg then -(digitsVal ds.1 : ℤ) else (digitsVal ds.1 : ℤ)), ds.2)
  match cs with
  | 'e' :: '-' :: r => digits true r
  | 'E' :: '-' :: r => digits true r
  | 'e' :: '+' :: r => digits false r
  | 'E' :: '+' :: r => digits false r
  | 'e' :: r => digits false r
  | 'E' :: r => digits false r
  | _ => some (0, cs)

/-- Reads a number literal: `-? (0 | [1-9][0-9]*) (. [0-9]+)? ([eE] [+-]? [0-9]+)?`. -/
def parseNumber (cs : List Char) : Option (JSNumber × List Char) :=
  let sg : Bool × List Char := match cs with
    | '-' :: r => (true, r)
    | _ => (false, cs)
  let ip : List Char × List Char := match sg.2 with
    | '0' :: r => (['0'], r)
    | _ => sg.2.span Char.isDigit
  if ip.1 = [] then none else
  let fp : Option (List Char × List Char) := match ip.2 with
    | '.' :: r =>
      let ds := r.span Char.isDigit
      if ds.1 = [] then none else some ds
    | _ => some ([], ip.2)
  match fp with
  | none => none
  | some fp =>
    match parseExponent fp.2 with
    | none => none
    | some ex =>
      some (JSNumber.ofDecimal sg.1 (digitsVal (ip.1 ++ fp.1)) (ex.1 - fp.1.length), ex.2)

/-- Sets property `k` of a property list: a later duplicate of a key replaces
the value in place. -/
def setProp (k : String) (v : JSValue) : List (String × JSValue) → List (String × JSValue)
  | [] => [(k, v)]
  | p :: ps => if p.1 == k then (k, v) :: ps else p :: setProp k v ps

mutual

/-- Reads one JSON value, then the rest of the text; `none` is a syntax error
(or spent fuel: `parse` gives enough). -/
def parseValue : ℕ → List Char → Option (JSValue × List Char)
  | 0, _ => none
  | fuel + 1, cs =>
    match skipWs cs with
    | 'n' :: 'u' :: 'l' :: 'l' :: r => some (.null, r)
    | 't' :: 'r' :: 'u' :: 'e' :: r => some (.bool true, r)
    | 'f' :: 'a' :: 'l' :: 's' :: 'e' :: r => some (.bool false, r)
    | '"' :: r =>
      match parseString r [] with
      | some (s, r') => some (.string s, r')
      | none => none
    | '[' :: r =>
      match skipWs r with
      | ']' :: r' => some (.array [], r')
      | _ => parseElements fuel r []
    | '\x7b' :: r =>
      match skipWs r with
      | '\x7d' :: r' => some (.object [], r')
      | _ => parseMembers fuel r []
    | cs' =>
      match parseNumber cs' with
      | some (x, r) => some (.number x, r)
      | none => none

/-- Reads the elements of an array up to its closing bracket; `acc` holds the
elements read so far, last first. -/
def parseElements : ℕ → List Char → List JSValue → Option (JSValue × List Char)
  | 0, _, _ => none
  | fuel + 1, cs, acc =>
    match parseValue fuel cs with
    | none => none
    | some (v, r) =>
      match skipWs r with
      | ',' :: r' => parseElements fuel r' (v :: acc)
      | ']' :: r' => some (.array (v :: acc).reverse, r')
      | _ => none

/-- Reads the members of an object up to its closing brace. -/
def parseMembers : ℕ → List Char → List (String × JSValue) → Option (JSValue × List Char)
  | 0, _, _ => none
  | fuel + 1, cs, acc =>
    match skipWs cs with
    | '"' :: r =>
      match parseString r [] with
      | none => none
      | some (k, r1) =>
        match skipWs r1 with
        | ':' :: r2 =>
          match parseValue fuel r2 with
          | none => none
          | some (v, r3) =>
            match skipWs r3 with
            | ',' :: r4 => parseMembers fuel r4 (setProp k v acc)
            | '\x7d' :: r4 => some (.object (setProp k v acc), r4)
            | _ => none
        | _ => none
    | _ => none

end

/-- Evaluating `JSON.parse(text)`: the value, or the SyntaxError.  Of any two nested
calls of the reader one consumes a character, so the fuel suffices. -/
def parse (text : String) : Except JSError JSValue :=
  match parseValue (2 * text.length + 2) text.data with
  | some (v, r) => if skipWs r = [] then .ok v else .error .syntaxError
  | none => .error .syntaxError

end JSON

/-! ## The page and the controller -/

/-- The `latlng` of a map click event: Leaflet computes it from the place of the
click, so both are finite Numbers. -/
structure LatLng where
  lat : JSNumber
  lng : JSNumber
  finite : lat.isFinite = true ∧ lng.isFinite = true
  deriving DecidableEq

/-- The Leaflet map as the script drives it: where the view is, and the workouts
a marker has been added for, in the order of the calls. -/
structure LeafletMap where
  center : JSValue
  zoom : ℕ
  markers : List JSValue

/-- What a submission reads from the form: the chosen type and the fields after
the unary `+` has made Numbers of them. -/
structure FormInput where
  type : String
  distance : JSNumber
  duration : JSNumber
  cadence : JSNumber
  elevation : JSNumber

/-- The private fields of `App` and the parts of the page it acts on. -/
structure State where
  /-- The field `#map`, absent until `_loadMap` has run. -/
  map : Option LeafletMap
  /-- The `latlng` of the field `#mapEvent`, absent until the map has been clicked. -/
  mapEvent : Option LatLng
  /-- The field `#workouts`. -/
  workouts : JSValue
  /-- The field `#mapZoom`. -/
  mapZoom : ℕ
  /-- Whether the form carries the class `hidden`. -/
  formHidden : Bool
  /-- The workouts rendered as list entries after the form, in document order
  (`insertAdjacentHTML('afterend', …)` puts the newest first). -/
  entries : List JSValue
  /-- The messages shown with `alert`, oldest first. -/
  alerts : List String
  /-- The item `'workouts'` of `localStorage`. -/
  storage : Option String

/-- How a method call ends: the state it leaves and the exception it threw, if any. -/
structure Result where
  state : State
  error : Option JSError

/-- Evaluating `xs.forEach(f)`: the calls in order, stopping at the first that throws. -/
def forEach (f : JSValue → State → Result) : List JSValue → State → Result
  | [], st => ⟨st, none⟩
  | x :: xs, st =>
    match f x st with
    | ⟨st', none⟩ => forEach f xs st'
    | r => r

/-- Evaluating `validInputs(...inputs)`. -/
def validInputs (inputs : List JSNumber) : Bool := inputs.all JSNumber.isFinite

/-- Evaluating `allPositive(...inputs)`. -/
def allPositive (inputs : List JSNumber) : Bool := inputs.all JSNumber.gtZero

/-- The message of a rejected submission. -/
def rejectMessage : String := "Inputs have to be positive numbers!"

namespace App

/-- The fields that the template of `_renderWorkout` interpolates, in order: five
for every workout, then `pace` and `cadence` when `workout.type === 'running'`,
`speed` and `elevationGain` otherwise. -/
def templateFields (workout : JSValue) : List String :=
  ["type", "id", "description", "distance", "duration"] ++
    (if (workout.get "type").strictEqString "running" then ["pace", "cadence"]
     else ["speed", "elevationGain"])

/-- Calling `_renderWorkout(workout)`: reading a property of `null` or `undefined`
throws, and so does the template when a field it interpolates has no string;
otherwise the entry is inserted right after the form. -/
def _renderWorkout (workout : JSValue) (st : State) : Result :=
  if workout.isNullish then ⟨st, some .typeError⟩
  else if (templateFields workout).any (fun k => (workout.get k).toStringThrows) then
    ⟨st, some .typeError⟩
  else ⟨{ st with entries := workout :: st.entries }, none⟩

/-- Whether `v` is an array of two finite Numbers, as the script makes them from
the `lat` and `lng` of a click. -/
def isPosition : JSValue → Bool
  | .array [.number a, .number b] => a.isFinite && b.isFinite
  | _ => false

/-- Whether Leaflet throws when it converts `v` to a position, as `L.marker(v)`
does: an array of two finite Numbers becomes a position, `null` and `undefined`
are handed on as they are, of any other value the runtime says. -/
def convertThrows (rt : Runtime) (v : JSValue) : Bool :=
  if isPosition v then false
  else if v.isNullish then false
  else rt.rejectsLatLng v

/-- Whether Leaflet can place a marker or the view at `v`: it can at an array of
two finite Numbers; at `null` or `undefined` it throws when it reads the
latitude; of any other value the runtime says. -/
def acceptsPosition (rt : Runtime) (v : JSValue) : Bool :=
  if isPosition v then true
  else if v.isNullish then false
  else !rt.rejectsLatLng v && rt.acceptsLatLng v

/-- Calling `_renderWorkoutMarker(workout)`: `workout.cords` throws on a nullish
workout, `L.marker` on cords it cannot convert, `addTo` on an absent map or on
cords that are no position (what Leaflet leaves on the map then is not
modelled).  Once the marker is on the map, the class name of the popup
interpolates `type` and its content `description`, either of which throws when
the field has no string. -/
def _renderWorkoutMarker (rt : Runtime) (workout : JSValue) (st : State) : Result :=
  if workout.isNullish then ⟨st, some .typeError⟩
  else if convertThrows rt (workout.get "cords") then ⟨st, some .leaflet⟩
  else
    match st.map with
    | none => ⟨st, some .typeError⟩
    | some m =>
      if !acceptsPosition rt (workout.get "cords") then ⟨st, some .leaflet⟩
      else
        let st1 : State := { st with map := some { m with markers := m.markers ++ [workout] } }
        if (workout.get "type").toStringThrows || (workout.get "description").toStringThrows
        then ⟨st1, some .typeError⟩
        else ⟨st1, none⟩

/-- Calling `_loadMap(position)` for coordinates `latitude`, `longitude`: a new map
centred there (Leaflet throws when they are no position), then a marker for
every workout. -/
def _loadMap (rt : Runtime) (latitude longitude : JSNumber) (st : State) : Result :=
  if !acceptsPosition rt (.array [.number latitude, .number longitude]) then
    ⟨st, some .leaflet⟩
  else
    let st1 : State :=
      { st with map := some ⟨.array [.number latitude, .number longitude], st.mapZoom, []⟩ }
    match st1.workouts with
    | .array ws => forEach (_renderWorkoutMarker rt) ws st1
    | _ => ⟨st1, some .typeError⟩

/-- Calling `_getPosition()`: it asks the browser for the position and returns; the
answer comes later, as a call of `_loadMap` or of the failure callback. -/
def _getPosition (st : State) : Result := ⟨st, none⟩

/-- The failure callback of `getCurrentPosition`. -/
def positionError (st : State) : Result :=
  ⟨{ st with alerts := st.alerts ++ ["Could not get your position"] }, none⟩

/-- Calling `_showForm(mapE)`. -/
def _showForm (mapE : LatLng) (st : State) : Result :=
  ⟨{ st with mapEvent := some mapE, formHidden := false }, none⟩

/-- Calling `_hideForm()` (the fields it empties are read anew by each submission). -/
def _hideForm (st : State) : State := { st with formHidden := true }

/-- Calling `_setLocalStorage()`. -/
def _setLocalStorage (rt : Runtime) (st : State) : State :=
  { st with storage := some (rt.stringify st.workouts) }

/-- Calling `_getLocalStorage()`: `getItem` gives `null` for a missing item, which
`JSON.parse` reads as the text `null`. -/
def _getLocalStorage (st : State) : Result :=
  match JSON.parse (st.storage.getD "null") with
  | .error e => ⟨st, some e⟩
  | .ok data =>
    if !data.truthy then ⟨st, none⟩
    else
      let st1 : State := { st with workouts := data }
      match data with
      | .array ws => forEach _renderWorkout ws st1
      | _ => ⟨st1, some .typeError⟩

/-- What the two type tests of `_newWorkout` come to. -/
inductive Built where
  | rejected
  | thrown (e : JSError)
  | built (workout : JSValue)

/-- The part of `_newWorkout` between reading the click and the `push`: for the
type `running` or `cycling` the check of the fields and the constructor call;
for any other type `workout` stays `undefined`. -/
def buildWorkout (rt : Runtime) (date : JSDate) (now : ℕ) (inp : FormInput)
    (cords : JSValue) : Built :=
  if inp.type = "running" then
    if !validInputs [inp.distance, inp.duration, inp.cadence]
        || !allPositive [inp.distance, inp.duration, inp.cadence] then .rejected
    else
      match Running.new rt date now cords inp.distance inp.duration inp.cadence with
      | .ok w => .built w
      | .error e => .thrown e
  else if inp.type = "cycling" then
    if !validInputs [inp.distance, inp.duration, inp.elevation]
        || !allPositive [inp.distance, inp.duration] then .rejected
    else
      match Cycling.new rt date now cords inp.distance inp.duration inp.elevation with
      | .ok w => .built w
      | .error e => .thrown e
  else .built .undefined

/-- Calling `_newWorkout(e)` with the form reading `inp`, when a constructor would
read `date` from `new Date()` and `now` from `Date.now()`. -/
def _newWorkout (rt : Runtime) (date : JSDate) (now : ℕ) (inp : FormInput)
    (st : State) : Result :=
  match st.mapEvent with
  | none => ⟨st, some .typeError⟩
  | some ev =>
    match buildWorkout rt date now inp (.array [.number ev.lat, .number ev.lng]) with
    | .rejected => ⟨{ st with alerts := st.alerts ++ [rejectMessage] }, none⟩
    | .thrown e => ⟨st, some e⟩
    | .built workout =>
      match st.workouts with
      | .array ws =>
        let st1 : State := { st with workouts := .array (ws ++ [workout]) }
        match _renderWorkout workout st1 with
        | ⟨st2, none⟩ =>
          match _renderWorkoutMarker rt workout st2 with
          | ⟨st3, none⟩ => ⟨_setLocalStorage rt (_hideForm st3), none⟩
          | r => r
        | r => r
      | _ => ⟨st, some .typeError⟩

/-- Evaluating `this.#workouts.find(el => el.id === id)` over the elements: the first
match, `undefined` if there is none; reading `id` of a nullish element throws. -/
def findById (id : String) : List JSValue → Except JSError JSValue
  | [] => .ok .undefined
  | el :: els =>
    if el.isNullish then .error .typeError
    else if (el.get "id").strictEqString id then .ok el
    else findById id els

/-- Calling `_moveToPopup(e)`; `target` is `none` when the click has no `.workout`
ancestor, else the `data-id` of that entry.  Leaflet throws in `setView` when the
cords of the workout found are no position. -/
def _moveToPopup (rt : Runtime) (target : Option String) (st : State) : Result :=
  match target with
  | none => ⟨st, none⟩
  | some id =>
    match st.workouts with
    | .array ws =>
      match findById id ws with
      | .error e => ⟨st, some e⟩
      | .ok workout =>
        match st.map with
        | none => ⟨st, some .typeError⟩
        | some m =>
          if workout.isNullish then ⟨st, some .typeError⟩
          else if !acceptsPosition rt (workout.get "cords") then ⟨st, some .leaflet⟩
          else
            ⟨{ st with map := some { m with center := workout.get "cords",
                                            zoom := st.mapZoom } }, none⟩
    | _ => ⟨st, some .typeError⟩

/-- The state in which the constructor of `App` starts: the fields' initial
values, on a page showing `entries` with `storage` in `localStorage`. -/
def initial (formHidden : Bool) (entries : List JSValue) (storage : Option String) : State :=
  { map := none, mapEvent := none, workouts := .array [], mapZoom := 13,
    formHidden := formHidden, entries := entries, alerts := [], storage := storage }

/-- Evaluating `new App()`: `_getPosition`, then `_getLocalStorage`; the listeners are
registered after these, so only when neither has thrown. -/
def new (formHidden : Bool) (entries : List JSValue) (storage : Option String) : Result :=
  match _getPosition (initial formHidden entries storage) with
  | ⟨st, none⟩ => _getLocalStorage st
  | r => r

end App

/-! ## `Number::toString` and `JSON.stringify` -/

namespace JSNumber

/-- Whether `n * 2^E = m * 2^e`. -/
def sameValue (n : ℕ) (E : ℤ) (m : ℕ) (e : ℤ) : Bool :=
  if e ≤ E then n * 2 ^ (E - e).toNat == m else n == m * 2 ^ (e - E).toNat

/-- Whether the decimal `s * 10^p` reads back as the Number `m * 2^e`. -/
def readsBack (s : ℕ) (p : ℤ) (m : ℕ) (e : ℤ) : Bool :=
  match ofDecimal false s p with
  | fin _ n E => sameValue n E m e
  | _ => false

/-- The least `j ≥ start` with `D ≤ N * 10^j`, looked for `fuel` times. -/
def leadingZeros : ℕ → ℕ → ℕ → ℕ → ℕ
  | 0, start, _, _ => start
  | fuel + 1, start, N, D => if D ≤ N * 10 ^ start then start else leadingZeros fuel (start + 1) N D

/-- The integer `n` with `10^(n-1) ≤ m * 2^e < 10^n`, for `m > 0`. -/
def decimalExponent (m : ℕ) (e : ℤ) : ℤ :=
  let ND := scale m 1 e
  if ND.2 ≤ ND.1 then ((decDigits (ND.1 / ND.2)).length : ℤ)
  else 1 - (leadingZeros 400 1 ND.1 ND.2 : ℤ)

/-- The digits of the shortest decimal that reads back as `m * 2^e`, tried from
`k` digits on: the integer `s` of the digits and the exponent `n` with
`s * 10^(n-k)` the decimal.  Of two decimals of one length the nearer to the
Number is taken, the even one when they are as near. -/
def shortestFrom : ℕ → ℕ → ℕ → ℤ → ℕ × ℤ
  | 0, _, m, e => (m, e)
  | fuel + 1, k, m, e =>
    let n := decimalExponent m e
    let ND := scale m 1 e
    let y : ℕ × ℕ :=
      if n ≤ k then (ND.1 * 10 ^ ((k : ℤ) - n).toNat, ND.2)
      else (ND.1, ND.2 * 10 ^ (n - (k : ℤ)).toNat)
    let s0 := y.1 / y.2
    let lo := readsBack s0 (n - k) m e
    let hi := readsBack (s0 + 1) (n - k) m e
    let pick : Option ℕ :=
      if lo && hi then
        (if 2 * y.1 < (2 * s0 + 1) * y.2 then some s0
         else if (2 * s0 + 1) * y.2 < 2 * y.1 then some (s0 + 1)
         else some (s0 + s0 % 2))
      else if lo then some s0
      else if hi then some (s0 + 1)
      else none
    match pick with
    | some s => if s = 10 ^ k then (10 ^ (k - 1), n + 1) else (s, n)
    | none => if fuel = 0 then (s0, n) else shortestFrom fuel (k + 1) m e

/-- `Number::toString` of the Number `m * 2^e`, for `m > 0`. -/
def positiveToString (m : ℕ) (e : ℤ) : List Char :=
  let sn := shortestFrom 17 1 m e
  let ds := decDigits sn.1
  let k : ℤ := ds.length
  let n := sn.2
  if k ≤ n ∧ n ≤ 21 then ds ++ List.replicate (n - k).toNat '0'
  else if 0 < n ∧ n ≤ 21 then ds.take n.toNat ++ '.' :: ds.drop n.toNat
  else if -6 < n ∧ n ≤ 0 then '0' :: '.' :: List.replicate (-n).toNat '0' ++ ds
  else
    let ex := (if 0 ≤ n - 1 then '+' else '-') :: decDigits (n - 1).natAbs
    match ds with
    | [d] => d :: 'e' :: ex
    | d :: rest => d :: '.' :: rest ++ 'e' :: ex
    | [] => []

/-- `Number::toString` of a Number. -/
def toString : JSNumber → List Char
  | nan => "NaN".data
  | inf neg => if neg then "-Infinity".data else "Infinity".data
  | fin neg m e =>
    if m = 0 then ['0']
    else if neg then '-' :: positiveToString m e
    else positiveToString m e

end JSNumber

namespace JSON

/-- The digits of `n` in a field of `width` places, zeros in front. -/
def padded (width n : ℕ) : List Char :=
  List.replicate (width - (decDigits n).length) '0' ++ decDigits n

/-- What `toISOString` gives for the time value `t`: the UTC date and time of
`t` milliseconds after the epoch. -/
def isoString (t : ℕ) : List Char :=
  let days := t / 86400000
  let ms := t % 86400000
  let z := days + 719468
  let era := z / 146097
  let doe := z % 146097
  let yoe := (doe - doe / 1460 + doe / 36524 - doe / 146096) / 365
  let doy := doe - (365 * yoe + yoe / 4 - yoe / 100)
  let mp := (5 * doy + 2) / 153
  let d := doy - (153 * mp + 2) / 5 + 1
  let mo := if mp < 10 then mp + 3 else mp - 9
  let y := yoe + era * 400 + (if mo ≤ 2 then 1 else 0)
  (if y ≤ 9999 then padded 4 y else '+' :: padded 6 y) ++ '-' :: padded 2 mo ++ '-' ::
    padded 2 d ++ 'T' :: padded 2 (ms / 3600000) ++ ':' :: padded 2 (ms / 60000 % 60) ++ ':' ::
    padded 2 (ms / 1000 % 60) ++ '.' :: padded 3 (ms % 1000) ++ ['Z']

/-- The hexadecimal digit of `d < 16`, in lower case. -/
def hexDigit (d : ℕ) : Char := if d < 10 then Char.ofNat (48 + d) else Char.ofNat (87 + d)

/-- The characters of a string as `QuoteJSONString` writes them between the
quotes. -/
def escape : List Char → List Char
  | [] => []
  | c :: cs =>
    (if c = '"' then ['\\', '"']
     else if c = '\\' then ['\\', '\\']
     else if c = '\x08' then ['\\', 'b']
     else if c = '\x0c' then ['\\', 'f']
     else if c = '\n' then ['\\', 'n']
     else if c = '\r' then ['\\', 'r']
     else if c = '\t' then ['\\', 't']
     else if c.toNat < 0x20 then ['\\', 'u', '0', '0', hexDigit (c.toNat / 16), hexDigit (c.toNat % 16)]
     else [c]) ++ escape cs

/-- A string between quotes. -/
def quote (cs : List Char) : List Char := '"' :: escape cs ++ ['"']

/-- The number that a property name which is an array index stands for: digits
without a zero in front, below `2^32 - 1`. -/
def arrayIndex (k : String) : Option ℕ :=
  if k.data ≠ [] ∧ k.data.all Char.isDigit ∧ (k.data.head? = some '0' → k.data = ['0'])
      ∧ digitsVal k.data < 2 ^ 32 - 1
  then some (digitsVal k.data) else none

/-- Puts an entry with the index `i` in its place among entries sorted by their
indices. -/
def insertIndexed {α : Type} (i : ℕ) (p : String × α) :
    List (ℕ × (String × α)) → List (ℕ × (String × α))
  | [] => [(i, p)]
  | q :: qs => if i < q.1 then (i, p) :: q :: qs else q :: insertIndexed i p qs

/-- The own properties of an object in the order in which they are enumerated:
those named by an array index first, by rising index, then the others as they
were added. -/
def ownKeysOrder {α : Type} (props : List (String × α)) : List (String × α) :=
  (props.foldl (fun acc p =>
      match arrayIndex p.1 with
      | some i => insertIndexed i p acc
      | none => acc) []).map Prod.snd
    ++ props.filter (fun p => (arrayIndex p.1).isNone)

/-- Joins texts with commas. -/
def commas : List (List Char) → List Char
  | [] => []
  | [x] => x
  | x :: y :: xs => x ++ ',' :: commas (y :: xs)

mutual

/-- The text `JSON.stringify` yields for a value inside another one, `none` for
`undefined`. -/
def stringifyValue : JSValue → Option (List Char)
  | .undefined => none
  | .null => some "null".data
  | .bool b => some (if b then "true".data else "false".data)
  | .number x => some (if x.isFinite then x.toString else "null".data)
  | .string s => some (quote s.data)
  | .date d => some (quote (isoString d.time))
  | .array xs => some ('[' :: commas (stringifyElements xs) ++ [']'])
  | .object props =>
    some ('\x7b' :: commas ((ownKeysOrder (stringifyMembers props)).map
      (fun p => quote p.1.data ++ ':' :: p.2)) ++ ['\x7d'])

/-- The texts of the elements of an array, `undefined` being written `null`. -/
def stringifyElements : List JSValue → List (List Char)
  | [] => []
  | x :: xs => (stringifyValue x).getD "null".data :: stringifyElements xs

/-- The names and texts of the members of an object, one whose value is
`undefined` being left out. -/
def stringifyMembers : List (String × JSValue) → List (String × List Char)
  | [] => []
  | (k, v) :: ps =>
    match stringifyValue v with
    | some t => (k, t) :: stringifyMembers ps
    | none => stringifyMembers ps

end

/-- Evaluating `JSON.stringify(value)`, as `setItem` stores it: `undefined` is stored as the
text `undefined`. -/
def stringify (v : JSValue) : String :=
  String.mk ((stringifyValue v).getD "undefined".data)

end JSON
/-! ## Definitions used to state the properties -/

/-- Reference recursion for the decimal digits of a number. -/
def digitsSpec (n : ℕ) : List Char :=
  if n < 10 then [digitChar n] else digitsSpec (n / 10) ++ [digitChar (n % 10)]
decreasing_by omega

/-- The `k` low decimal digits of `n`, most significant first. -/
def lowDigits : ℕ → ℕ → List Char
  | 0, _ => []
  | k + 1, n => lowDigits k (n / 10) ++ [digitChar (n % 10)]

/-- A list of decimal digit characters. -/
def AllDigits (cs : List Char) : Prop := ∀ c ∈ cs, ∃ d, d < 10 ∧ c = digitChar d

/-- The number `x` rounded to `f` decimal places, a tie going up. -/
def roundDecimal (f : ℕ) (x : ℚ) : ℚ := (⌊x * 10 ^ f + 1 / 2⌋ : ℚ) / 10 ^ f

/-- The number that a numeral made of digits with an optional fraction part
denotes. -/
def numeralValue (s : String) : ℚ :=
  let ip := s.data.takeWhile (fun c => c != '.')
  let fp := (s.data.dropWhile (fun c => c != '.')).drop 1
  (JSON.digitsVal ip : ℚ) + (JSON.digitsVal fp : ℚ) / 10 ^ fp.length

/-- The real number a finite Number stands for; `0` for the others. -/
def JSNumber.toRat : JSNumber → ℚ
  | .fin neg m e => (if neg then -1 else 1) * ((m : ℚ) * 2 ^ e)
  | _ => 0

/-- The double `n * 2^E` is the positive real `x` rounded to nearest, ties to
even: `2^E` is the unit in the last place of the doubles around `x` (so
`x < 2^(E+53)`, and `2^(E+52) ≤ x` unless `E` is the least exponent `-1074`), the
double is below `2^1024` and within half a unit of `x`, and when `x` lies
halfway between two doubles its significand is even. -/
def IsNearestDouble (x : ℚ) (n : ℕ) (E : ℤ) : Prop :=
  -1074 ≤ E ∧ x < 2 ^ (E + 53) ∧ (-1074 < E → 2 ^ (E + 52) ≤ x) ∧
  (n : ℚ) * 2 ^ E < 2 ^ (1024 : ℤ) ∧
  |(n : ℚ) * 2 ^ E - x| ≤ 2 ^ E / 2 ∧
  (|(n : ℚ) * 2 ^ E - x| = 2 ^ E / 2 → n % 2 = 0)

/-- The Number `y` is the positive real `x` rounded as IEEE-754 division rounds:
to the nearest double, and to `+∞` from `2^1024 - 2^970` on. -/
def RoundsTo (x : ℚ) : JSNumber → Prop
  | .fin false n E => IsNearestDouble x n E
  | .inf false => (2 : ℚ) ^ (1024 : ℤ) - 2 ^ (970 : ℤ) ≤ x
  | _ => False

/-- The string is a decimal numeral with exactly `f` digits after the point:
digits, a point, `f` digits, and no zero in front of the integer part unless
that part is the single digit `0`. -/
def IsFixedNumeral (f : ℕ) (s : String) : Prop :=
  ∃ ip fp, s.data = ip ++ '.' :: fp ∧ AllDigits ip ∧ AllDigits fp ∧ fp.length = f ∧
    ip ≠ [] ∧ (ip.head? = some '0' → ip = ['0'])

/-- The check of a running submission in the words of the specification: the
three fields are finite numbers and strictly positive. -/
def RunningValid (inp : FormInput) : Prop :=
  (inp.distance.isFinite = true ∧ inp.duration.isFinite = true ∧ inp.cadence.isFinite = true) ∧
  (inp.distance.gtZero = true ∧ inp.duration.gtZero = true ∧ inp.cadence.gtZero = true)

/-- The check of a cycling submission in the words of the specification: the
three fields are finite numbers, distance and duration strictly positive. -/
def CyclingValid (inp : FormInput) : Prop :=
  (inp.distance.isFinite = true ∧ inp.duration.isFinite = true ∧
    inp.elevation.isFinite = true) ∧
  (inp.distance.gtZero = true ∧ inp.duration.gtZero = true)

/-- The call that ended as `r` rejected the submission: it returned after the
alert, and the collection, the list, the map and the stored item are as before. -/
def Rejected (st : State) (r : Result) : Prop :=
  r.error = none ∧ r.state.alerts = st.alerts ++ [rejectMessage] ∧
  r.state.workouts = st.workouts ∧ r.state.entries = st.entries ∧
  r.state.map = st.map ∧ r.state.storage = st.storage

/-- The call that ended as `r` accepted the submission as the workout `w`: it
returned without an alert, with `w` appended to the collection, rendered in the
list, marked on the map, and the collection stored. -/
def Accepted (rt : Runtime) (st : State) (w : JSValue) (r : Result) : Prop :=
  r.error = none ∧ r.state.alerts = st.alerts ∧
  ∃ ws m, st.workouts = .array ws ∧ st.map = some m ∧
    r.state.workouts = .array (ws ++ [w]) ∧ r.state.entries = w :: st.entries ∧
    r.state.map = some { m with markers := m.markers ++ [w] } ∧
    r.state.storage = some (rt.stringify (.array (ws ++ [w])))

/-- The array `[lat, lng]` that a submission takes from the pending click. -/
def cordsOf (ev : LatLng) : JSValue := .array [.number ev.lat, .number ev.lng]

/-- The fields of a record that the list entry or the popup shows. -/
def shownFields : List String :=
  ["type", "id", "description", "distance", "duration", "pace", "cadence", "speed",
   "elevationGain"]

/-- A record as the script stores them, as far as showing it goes: an object in
which each of the shown fields is absent or a primitive value (a string, a
Number, a boolean, `null`). -/
def IsPlainRecord (r : JSValue) : Prop :=
  (∃ props, r = .object props) ∧ ∀ k ∈ shownFields, (r.get k).isPrimitive = true

/-- The record has the position the script stores: its `cords` are an array of
two finite Numbers. -/
def HasPosition (r : JSValue) : Prop :=
  ∃ a b, r.get "cords" = .array [.number a, .number b] ∧
    a.isFinite = true ∧ b.isFinite = true

/-! ## Values to evaluate examples with -/

/-- The runtime of the examples: `Number::toString` and `JSON.stringify` as defined
above.  No example asks for the upper case of a character outside ASCII or
gives Leaflet anything but `undefined` or two finite Numbers, so the character
itself and a refusal stand in for those answers. -/
def sampleRuntime : Runtime :=
  { numberToString := fun m e => String.mk (JSNumber.positiveToString m e),
    stringify := JSON.stringify,
    toUpperCase := fun c => String.singleton c,
    rejectsLatLng := fun _ => true,
    acceptsLatLng := fun _ => false }

/-- The date 14 March, at the time value 1710400000000. -/
def sampleDate : JSDate := { time := 1710400000000, month := 2, day := 14 }

/-- A running submission: 5.2 km, 24 min, 178 steps a minute. -/
def sampleRunning : FormInput :=
  { type := "running", distance := .ofDecimal false 52 (-1), duration := .ofNat 24,
    cadence := .ofNat 178, elevation := .ofNat 0 }

/-- A cycling submission: 27 km, 95 min, an elevation of -5 m. -/
def sampleCycling : FormInput :=
  { type := "cycling", distance := .ofNat 27, duration := .ofNat 95,
    cadence := .ofNat 0, elevation := .ofDecimal true 5 0 }

/-- The click at `[39, -12]`. -/
def sampleClick : LatLng :=
  { lat := .ofNat 39, lng := .ofDecimal true 12 0, finite := by decide }

/-- The map right after `_loadMap` at `[39, -12]`. -/
def sampleMap : LeafletMap :=
  { center := .array [.number (.ofNat 39), .number (.ofDecimal true 12 0)], zoom := 13,
    markers := [] }

/-- A state in which the map is loaded and a click on it is pending. -/
def readyState : State :=
  { map := some sampleMap, mapEvent := some sampleClick, workouts := .array [], mapZoom := 13,
    formHidden := false, entries := [], alerts := [], storage := none }

/-- The workout that `sampleRunning` makes at `sampleClick` on `sampleDate`. -/
def sampleRunningWorkout : JSValue :=
  .object [("date", .date sampleDate), ("id", .string "0400000000"),
    ("cords", cordsOf sampleClick), ("distance", .number (.ofDecimal false 52 (-1))),
    ("duration", .number (.ofNat 24)), ("cadence", .number (.ofNat 178)),
    ("type", .string "running"), ("pace", .string "4.62"),
    ("description", .string "Running on March 14")]

/-- A stored item holding two records. -/
def storedTwo : String :=
  "[\x7b\"id\":\"0000000000\",\"cords\":[39,-12]\x7d,\x7b\"id\":\"0000000001\",\"cords\":[40,-11]\x7d]"

/-- The records of `storedTwo`. -/
def recordsTwo : List JSValue :=
  [.object [("id", .string "0000000000"),
      ("cords", .array [.number (.ofNat 39), .number (.ofDecimal true 12 0)])],
   .object [("id", .string "0000000001"),
      ("cords", .array [.number (.ofNat 40), .number (.ofDecimal true 11 0)])]]

/-- A stored item cut off in the middle of a record. -/
def storedBroken : String := "[\x7b\"id\":\"0000000000\""

/-- The base fields of a workout created on 14 November 2023 at the time value
1700000000000. -/
def workoutNovember : JSValue :=
  .object (Workout.new { time := 1700000000000, month := 10, day := 14 } 1700000000000
    (cordsOf sampleClick) (.ofNat 5) (.ofNat 30))

/-- The base fields of a workout created on 9 March 2024 at the time value
1710000000000, which is `10^10` ms later. -/
def workoutMarch : JSValue :=
  .object (Workout.new { time := 1710000000000, month := 2, day := 9 } 1710000000000
    (cordsOf sampleClick) (.ofNat 8) (.ofNat 45))

/-- The map after `_loadMap` at `[39, -12]` with the records of `storedTwo` loaded. -/
def mapTwo : LeafletMap :=
  { center := .array [.number (.ofNat 39), .number (.ofDecimal true 12 0)], zoom := 13,
    markers := recordsTwo }

/-- The state after a startup that found `storedTwo`, the position callback at
`[39, -12]` and a click on the map at `sampleClick`. -/
def busyState : State :=
  (App._showForm sampleClick
    (App._loadMap sampleRuntime (.ofNat 39) (.ofDecimal true 12 0)
      (App.new true [] (some storedTwo)).state).state).state

/-- The text `JSON.stringify` gives for the records of `storedTwo` followed by
`sampleRunningWorkout`. -/
def storedThree : String :=
  "[\x7b\"id\":\"0000000000\",\"cords\":[39,-12]\x7d,\x7b\"id\":\"0000000001\",\"cords\":[40,-11]\x7d,\x7b\"date\":\"2024-03-14T07:06:40.000Z\",\"id\":\"0400000000\",\"cords\":[39,-12],\"distance\":5.2,\"duration\":24,\"cadence\":178,\"type\":\"running\",\"pace\":\"4.62\",\"description\":\"Running on March 14\"\x7d]"

/-- A stored item whose first record has no `cords`. -/
def storedNoCords : String :=
  "[\x7b\"id\":\"a\"\x7d,\x7b\"id\":\"b\",\"cords\":[40,-11]\x7d]"

/-- The records of `storedNoCords`. -/
def recordsNoCords : List JSValue :=
  [.object [("id", .string "a")],
   .object [("id", .string "b"),
      ("cords", .array [.number (.ofNat 40), .number (.ofDecimal true 11 0)])]]

/-- A stored item whose record has an object with a property `toString` for id. -/
def storedNoString : String := "[\x7b\"id\":\x7b\"toString\":1\x7d\x7d]"

/-! ## Facts about decimal numerals -/

theorem decDigitsAux_eq_spec (fuel : ℕ) : ∀ (n : ℕ) (acc : List Char), n < fuel →
    decDigitsAux fuel n acc = digitsSpec n ++ acc := by
  induction fuel with
  | zero => intro n acc h; omega
  | succ fuel ih =>
    intro n acc h
    rw [decDigitsAux, digitsSpec]
    by_cases h10 : n < 10
    · simp [h10]
    · have hlt : n / 10 < fuel := by omega
      simp [h10, ih (n / 10) _ hlt]

theorem decDigits_eq_spec (n : ℕ) : decDigits n = digitsSpec n := by
  simp [decDigits, decDigitsAux_eq_spec (n + 1) n [] (Nat.lt_succ_self n)]

theorem decDigits_small {n : ℕ} (h : n < 10) : decDigits n = [digitChar n] := by
  rw [decDigits_eq_spec, digitsSpec]; simp [h]

theorem decDigits_step {n : ℕ} (h : 10 ≤ n) :
    decDigits n = decDigits (n / 10) ++ [digitChar (n % 10)] := by
  rw [decDigits_eq_spec, decDigits_eq_spec, digitsSpec]
  simp [Nat.not_lt.mpr h]

theorem lowDigits_length (k n : ℕ) : (lowDigits k n).length = k := by
  induction k generalizing n with
  | zero => rfl
  | succ k ih => simp [lowDigits, ih]

theorem digitChar_inj {a b : ℕ} (ha : a < 10) (hb : b < 10) (h : digitChar a = digitChar b) :
    a = b := by
  interval_cases a <;> interval_cases b <;> first | rfl | (exfalso; revert h; decide)

theorem lowDigits_eq_iff (k a b : ℕ) :
    lowDigits k a = lowDigits k b ↔ a % 10 ^ k = b % 10 ^ k := by
  induction k generalizing a b with
  | zero => simp [lowDigits, Nat.mod_one]
  | succ k ih =>
    have ha : a % 10 ^ (k + 1) = a % 10 + 10 * (a / 10 % 10 ^ k) := by
      rw [pow_succ', Nat.mod_mul]
    have hb : b % 10 ^ (k + 1) = b % 10 + 10 * (b / 10 % 10 ^ k) := by
      rw [pow_succ', Nat.mod_mul]
    rw [ha, hb]
    simp only [lowDigits]
    constructor
    · intro h
      have hl := List.append_inj h (by simp [lowDigits_length])
      have h1 := (ih _ _).mp hl.1
      have h2 : a % 10 = b % 10 :=
        digitChar_inj (Nat.mod_lt _ (by norm_num)) (Nat.mod_lt _ (by norm_num))
          (by simpa using hl.2)
      omega
    · intro h
      have h2 : a % 10 = b % 10 := by omega
      have h1 : a / 10 % 10 ^ k = b / 10 % 10 ^ k := by omega
      rw [(ih _ _).mpr h1, h2]

theorem decDigits_length_ge (k : ℕ) : ∀ n, 10 ^ k ≤ n → k + 1 ≤ (decDigits n).length := by
  induction k with
  | zero =>
    intro n _
    by_cases h : n < 10
    · simp [decDigits_small h]
    · simp [decDigits_step (Nat.not_lt.mp h)]
  | succ k ih =>
    intro n hn
    have h10 : 10 ≤ n := le_trans (by rw [pow_succ]; have := Nat.one_le_pow k 10 (by norm_num); omega) hn
    have : 10 ^ k ≤ n / 10 := by
      rw [Nat.le_div_iff_mul_le (by norm_num)]; rw [pow_succ] at hn; exact hn
    have := ih _ this
    simp [decDigits_step h10]; omega

theorem sliceLast_decDigits (k : ℕ) : ∀ n, k ≤ (decDigits n).length →
    sliceLast k (decDigits n) = lowDigits k n := by
  induction k with
  | zero => intro n _; simp [sliceLast, lowDigits]
  | succ k ih =>
    intro n hk
    by_cases h : n < 10
    · rw [decDigits_small h] at hk ⊢
      have hk0 : k = 0 := by simpa using hk
      subst hk0
      simp [sliceLast, lowDigits, Nat.mod_eq_of_lt h]
    · have h10 := Nat.not_lt.mp h
      rw [decDigits_step h10] at hk ⊢
      have hk' : k ≤ (decDigits (n / 10)).length := by simpa using hk
      have := ih _ hk'
      simp only [sliceLast, lowDigits] at this ⊢
      rw [← this]
      simp only [List.length_append, List.length_singleton]
      rw [show (decDigits (n / 10)).length + 1 - (k + 1) = (decDigits (n / 10)).length - k by omega]
      rw [List.drop_append_of_le_length (by omega)]

theorem workout_id_eq_lowDigits {t : ℕ} (h : 10 ^ 9 ≤ t) :
    Workout.id t = String.mk (lowDigits 10 t) := by
  rw [Workout.id, sliceLast_decDigits 10 t (decDigits_length_ge 9 t h)]

theorem digitChar_toNat {d : ℕ} (h : d < 10) : (digitChar d).toNat = 48 + d := by
  interval_cases d <;> rfl

theorem digitChar_ne_point {d : ℕ} (h : d < 10) : (digitChar d != '.') = true := by
  interval_cases d <;> rfl

theorem digitsVal_append (xs ys : List Char) :
    JSON.digitsVal (xs ++ ys) = JSON.digitsVal xs * 10 ^ ys.length + JSON.digitsVal ys := by
  induction ys using List.reverseRecOn with
  | nil => simp [JSON.digitsVal]
  | append_singleton ys c ih =>
    rw [← List.append_assoc]
    simp only [JSON.digitsVal, List.foldl_append, List.foldl_cons, List.foldl_nil,
      List.length_append, List.length_singleton] at ih ⊢
    rw [ih, pow_succ]; ring

theorem decDigits_spec (n : ℕ) : AllDigits (decDigits n) ∧ JSON.digitsVal (decDigits n) = n := by
  induction n using Nat.strong_induction_on with
  | _ n ih =>
    by_cases h : n < 10
    · rw [decDigits_small h]
      refine ⟨?_, ?_⟩
      · intro c hc; exact ⟨n, h, by simpa using hc⟩
      · simp [JSON.digitsVal, digitChar_toNat h]
    · have h10 := Nat.not_lt.mp h
      rw [decDigits_step h10]
      obtain ⟨ha, hv⟩ := ih (n / 10) (by omega)
      refine ⟨?_, ?_⟩
      · intro c hc
        rcases List.mem_append.mp hc with hc | hc
        · exact ha c hc
        · exact ⟨n % 10, Nat.mod_lt _ (by norm_num), by simpa using hc⟩
      · rw [digitsVal_append, hv]
        simp [JSON.digitsVal, digitChar_toNat (Nat.mod_lt n (by norm_num : 0 < 10))]
        omega

theorem takeWhile_allDigits (xs ys : List Char) (h : AllDigits xs) :
    (xs ++ '.' :: ys).takeWhile (fun c => c != '.') = xs ∧
      (xs ++ '.' :: ys).dropWhile (fun c => c != '.') = '.' :: ys := by
  induction xs with
  | nil => simp
  | cons x xs ih =>
    obtain ⟨d, hd, rfl⟩ := h x (List.mem_cons_self _ _)
    have ih' := ih (fun c hc => h c (List.mem_cons_of_mem _ hc))
    simp only [List.cons_append, List.takeWhile_cons, List.dropWhile_cons, digitChar_ne_point hd,
      if_true, ih'.1, ih'.2, and_self]

theorem digitsVal_replicate_zero (k : ℕ) : JSON.digitsVal (List.replicate k '0') = 0 := by
  induction k with
  | zero => rfl
  | succ k ih =>
    rw [List.replicate_succ', digitsVal_append, ih]; simp [JSON.digitsVal]

theorem allDigits_replicate_zero (k : ℕ) : AllDigits (List.replicate k '0') := by
  intro c hc
  exact ⟨0, by norm_num, by rw [List.eq_of_mem_replicate hc]; rfl⟩

/-- The numeral `toFixed` writes for the integer `n` denotes `n / 10^f`. -/
theorem numeralValue_fixedDigits (n f : ℕ) :
    numeralValue (String.mk (JSNumber.fixedDigits n f)) = (n : ℚ) / 10 ^ f := by
  obtain ⟨hall, hval⟩ := decDigits_spec n
  by_cases hf : f = 0
  · subst hf
    have h1 : (decDigits n).takeWhile (fun c => c != '.') = decDigits n := by
      rw [List.takeWhile_eq_self_iff]
      intro c hc
      obtain ⟨d, hd, rfl⟩ := hall c hc
      exact digitChar_ne_point hd
    have h2 : (decDigits n).dropWhile (fun c => c != '.') = [] := by
      rw [List.dropWhile_eq_nil_iff]
      intro c hc
      obtain ⟨d, hd, rfl⟩ := hall c hc
      exact digitChar_ne_point hd
    have h0 : JSON.digitsVal [] = 0 := rfl
    simp [numeralValue, JSNumber.fixedDigits, h1, h2, hval, h0]
  · obtain ⟨m, hm, hlen, hmall, hmval⟩ : ∃ m : List Char,
        (if (decDigits n).length ≤ f
          then List.replicate (f + 1 - (decDigits n).length) '0' ++ decDigits n
          else decDigits n) = m ∧ f < m.length ∧ AllDigits m ∧ JSON.digitsVal m = n := by
      refine ⟨_, rfl, ?_, ?_, ?_⟩
      · split_ifs with h
        · simp; omega
        · omega
      · split_ifs with h
        · intro c hc
          rcases List.mem_append.mp hc with hc | hc
          · exact allDigits_replicate_zero _ c hc
          · exact hall c hc
        · exact hall
      · split_ifs with h
        · rw [digitsVal_append, digitsVal_replicate_zero, hval]; simp
        · exact hval
    have hfix : JSNumber.fixedDigits n f =
        m.take (m.length - f) ++ '.' :: m.drop (m.length - f) := by
      simp only [JSNumber.fixedDigits, hf, if_false, hm]
    have hip : AllDigits (m.take (m.length - f)) :=
      fun c hc => hmall c (List.mem_of_mem_take hc)
    obtain ⟨ht, hd⟩ := takeWhile_allDigits _ (m.drop (m.length - f)) hip
    have hsplit : JSON.digitsVal (m.take (m.length - f)) * 10 ^ f
        + JSON.digitsVal (m.drop (m.length - f)) = n := by
      have := digitsVal_append (m.take (m.length - f)) (m.drop (m.length - f))
      rw [List.take_append_drop, hmval, List.length_drop] at this
      rw [show m.length - (m.length - f) = f by omega] at this
      exact this.symm
    have hfl : (m.drop (m.length - f)).length = f := by
      rw [List.length_drop]; omega
    simp only [numeralValue, hfix, ht, hd, List.drop_succ_cons, List.drop_zero, hfl]
    rw [← hsplit]
    push_cast
    field_simp

/-- The integer `toFixed` rounds to is `⌊x * 10^f + 1/2⌋`. -/
theorem fixedInt_eq_floor (m : ℕ) (e : ℤ) (f : ℕ) :
    ((JSNumber.fixedInt m e f : ℕ) : ℤ) = ⌊(m : ℚ) * 2 ^ e * 10 ^ f + 1 / 2⌋ := by
  unfold JSNumber.fixedInt
  by_cases he : 0 ≤ e
  · obtain ⟨k, rfl⟩ := Int.eq_ofNat_of_zero_le he
    simp only [he, if_true, Int.toNat_ofNat, zpow_natCast]
    have : ((m : ℚ) * 2 ^ k * 10 ^ f + 1 / 2) = ((m * 2 ^ k * 10 ^ f : ℕ) : ℤ) + 1 / 2 := by
      push_cast; ring
    rw [this, Int.floor_int_add]
    norm_num
  · simp only [he, if_false]
    obtain ⟨k, hk⟩ : ∃ k : ℕ, -e = k := ⟨(-e).toNat, by omega⟩
    have he' : e = -(k : ℤ) := by omega
    rw [hk, Int.toNat_ofNat, he', zpow_neg, zpow_natCast]
    have h2 : (0 : ℚ) < 2 ^ k := by positivity
    have : ((m : ℚ) * (2 ^ k)⁻¹ * 10 ^ f + 1 / 2)
        = ((2 * (m * 10 ^ f) + 2 ^ k : ℕ) : ℚ) / ((2 * 2 ^ k : ℕ) : ℚ) := by
      push_cast; field_simp; ring
    rw [this, Rat.floor_natCast_div_natCast]
    norm_cast

theorem toFixed_value (m : ℕ) (e : ℤ) (f : ℕ) :
    numeralValue (String.mk (JSNumber.fixedDigits (JSNumber.fixedInt m e f) f))
      = roundDecimal f ((m : ℚ) * 2 ^ e) := by
  rw [numeralValue_fixedDigits, roundDecimal, ← fixedInt_eq_floor, Int.cast_natCast]

/-! ## Facts about the rounding of quotients -/

namespace JSNumber

theorem log2Aux_spec (fuel : ℕ) : ∀ n, n ≤ fuel → 0 < n →
    2 ^ log2Aux fuel n ≤ n ∧ n < 2 ^ (log2Aux fuel n + 1) := by
  induction fuel with
  | zero => intro n h h0; omega
  | succ fuel ih =>
    intro n h h0
    rw [log2Aux]
    by_cases h2 : n < 2
    · simp [h2]; omega
    · simp only [h2, if_false]
      obtain ⟨h3, h4⟩ := ih (n / 2) (by omega) (by omega)
      constructor
      · rw [pow_succ]; omega
      · rw [pow_succ]; omega

theorem log2_spec {n : ℕ} (h : 0 < n) : 2 ^ log2 n ≤ n ∧ n < 2 ^ (log2 n + 1) :=
  log2Aux_spec n n le_rfl h

theorem scale_pos (N D : ℕ) (s : ℤ) (hD : 0 < D) : 0 < (scale N D s).2 := by
  unfold scale
  split_ifs
  · exact hD
  · positivity

theorem scale_val (N D : ℕ) (s : ℤ) (hD : 0 < D) :
    ((scale N D s).1 : ℚ) / ((scale N D s).2 : ℚ) = (N : ℚ) / D * 2 ^ s := by
  have hD' : (D : ℚ) ≠ 0 := by positivity
  unfold scale
  split_ifs with h
  · obtain ⟨k, rfl⟩ := Int.eq_ofNat_of_zero_le h
    simp only [Int.toNat_ofNat, zpow_natCast]
    push_cast; ring
  · obtain ⟨k, hk⟩ : ∃ k : ℕ, -s = k := ⟨(-s).toNat, by omega⟩
    have hs : s = -(k : ℤ) := by omega
    rw [hk, Int.toNat_ofNat, hs, zpow_neg, zpow_natCast]
    push_cast
    field_simp

theorem ilog2Quot_lt (N D : ℕ) (hN : 0 < N) (hD : 0 < D) :
    (N : ℚ) / D < 2 ^ (ilog2Quot N D + 1) := by
  have hD' : (0 : ℚ) < D := by exact_mod_cast hD
  obtain ⟨_, hN2⟩ := log2_spec hN
  obtain ⟨hD1, _⟩ := log2_spec hD
  have hN2' : (N : ℚ) < 2 ^ ((log2 N : ℤ) + 1) := by
    have : (N : ℚ) < ((2 ^ (log2 N + 1) : ℕ) : ℚ) := by exact_mod_cast hN2
    rw [show ((log2 N : ℤ) + 1) = ((log2 N + 1 : ℕ) : ℤ) by push_cast; rfl, zpow_natCast]
    exact_mod_cast this
  have hD1' : (2 : ℚ) ^ (log2 D : ℤ) ≤ D := by
    rw [zpow_natCast]; exact_mod_cast hD1
  unfold ilog2Quot
  simp only
  split_ifs with h
  · rw [div_lt_iff₀ hD']
    calc (N : ℚ) < 2 ^ ((log2 N : ℤ) + 1) := hN2'
      _ = 2 ^ ((log2 N : ℤ) - (log2 D : ℤ) + 1) * 2 ^ (log2 D : ℤ) := by
        rw [← zpow_add₀ (by norm_num : (2 : ℚ) ≠ 0)]; congr 1; ring
      _ ≤ 2 ^ ((log2 N : ℤ) - (log2 D : ℤ) + 1) * D := by
        apply mul_le_mul_of_nonneg_left hD1'; positivity
  · have hlt : (scale N D (-((log2 N : ℤ) - (log2 D : ℤ)))).1 <
        (scale N D (-((log2 N : ℤ) - (log2 D : ℤ)))).2 := Nat.not_le.mp h
    have hpos := scale_pos N D (-((log2 N : ℤ) - (log2 D : ℤ))) hD
    have hv := scale_val N D (-((log2 N : ℤ) - (log2 D : ℤ))) hD
    have h1 : (N : ℚ) / D * 2 ^ (-((log2 N : ℤ) - (log2 D : ℤ))) < 1 := by
      rw [← hv, div_lt_one (by exact_mod_cast hpos)]
      exact_mod_cast hlt
    rw [zpow_neg, ← div_eq_mul_inv, div_lt_one (by positivity)] at h1
    rw [show (log2 N : ℤ) - (log2 D : ℤ) - 1 + 1 = (log2 N : ℤ) - (log2 D : ℤ) by ring]
    exact h1

theorem roundHalfEven_le (a b M : ℕ) (hb : 0 < b) (h : a ≤ M * b) : roundHalfEven a b ≤ M := by
  unfold roundHalfEven
  simp only
  have hq : a / b ≤ M := Nat.div_le_of_le_mul (by rwa [Nat.mul_comm] at h)
  rcases Nat.lt_or_eq_of_le hq with hlt | heq
  · split_ifs <;> omega
  · have hr : a % b = 0 := by
      have := Nat.div_add_mod a b
      rw [heq] at this
      have h' : b * M + a % b ≤ M * b := by omega
      have : b * M = M * b := Nat.mul_comm _ _
      omega
    simp [hr, hb, heq]

theorem geTenPow21_iff (m : ℕ) (e : ℤ) :
    geTenPow21 m e = true ↔ (10 : ℚ) ^ 21 ≤ (m : ℚ) * 2 ^ e := by
  unfold geTenPow21
  split_ifs with h
  · obtain ⟨k, rfl⟩ := Int.eq_ofNat_of_zero_le h
    simp only [Int.toNat_ofNat, zpow_natCast, decide_eq_true_eq]
    constructor
    · intro h; exact_mod_cast h
    · intro h; exact_mod_cast h
  · obtain ⟨k, hk⟩ : ∃ k : ℕ, -e = k := ⟨(-e).toNat, by omega⟩
    have hs : e = -(k : ℤ) := by omega
    rw [hk, Int.toNat_ofNat, hs, zpow_neg, zpow_natCast, decide_eq_true_eq,
      ← div_eq_mul_inv, le_div_iff₀ (by positivity)]
    constructor
    · intro h; exact_mod_cast h
    · intro h; exact_mod_cast h

theorem ilog2Quot_le (N D : ℕ) (hN : 0 < N) (hD : 0 < D) :
    (2 : ℚ) ^ ilog2Quot N D ≤ (N : ℚ) / D := by
  have hD' : (0 : ℚ) < D := by exact_mod_cast hD
  obtain ⟨hN1, _⟩ := log2_spec hN
  obtain ⟨_, hD2⟩ := log2_spec hD
  have hN1' : (2 : ℚ) ^ (log2 N : ℤ) ≤ N := by
    rw [zpow_natCast]; exact_mod_cast hN1
  have hD2' : (D : ℚ) < 2 ^ ((log2 D : ℤ) + 1) := by
    have : (D : ℚ) < ((2 ^ (log2 D + 1) : ℕ) : ℚ) := by exact_mod_cast hD2
    rw [show ((log2 D : ℤ) + 1) = ((log2 D + 1 : ℕ) : ℤ) by push_cast; rfl, zpow_natCast]
    exact_mod_cast this
  unfold ilog2Quot
  simp only
  split_ifs with h
  · have hpos := scale_pos N D (-((log2 N : ℤ) - (log2 D : ℤ))) hD
    have hv := scale_val N D (-((log2 N : ℤ) - (log2 D : ℤ))) hD
    have h1 : 1 ≤ (N : ℚ) / D * 2 ^ (-((log2 N : ℤ) - (log2 D : ℤ))) := by
      rw [← hv, one_le_div (by exact_mod_cast hpos)]
      exact_mod_cast h
    rw [zpow_neg, ← div_eq_mul_inv, one_le_div (by positivity)] at h1
    exact h1
  · rw [le_div_iff₀ hD']
    calc (2 : ℚ) ^ ((log2 N : ℤ) - (log2 D : ℤ) - 1) * D
        ≤ 2 ^ ((log2 N : ℤ) - (log2 D : ℤ) - 1) * 2 ^ ((log2 D : ℤ) + 1) := by
          apply mul_le_mul_of_nonneg_left hD2'.le; positivity
      _ = 2 ^ (log2 N : ℤ) := by
          rw [← zpow_add₀ (by norm_num : (2 : ℚ) ≠ 0)]; congr 1; ring
      _ ≤ N := hN1'

theorem roundHalfEven_near (a b : ℕ) (hb : 0 < b) :
    2 * (roundHalfEven a b * b) ≤ 2 * a + b ∧ 2 * a ≤ 2 * (roundHalfEven a b * b) + b := by
  unfold roundHalfEven
  simp only
  have hdm := Nat.div_add_mod a b
  have hr := Nat.mod_lt a hb
  have hcomm : b * (a / b) = a / b * b := Nat.mul_comm _ _
  have h1 : (a / b + 1) * b = a / b * b + b := Nat.succ_mul _ _
  split_ifs with h2 h3
  · omega
  · rw [h1]; omega
  · rcases Nat.mod_two_eq_zero_or_one (a / b) with h4 | h4
    · rw [h4, Nat.add_zero]; omega
    · rw [h4, h1]; omega

theorem roundHalfEven_ge (a b M : ℕ) (hb : 0 < b) (h : M * b ≤ a) : M ≤ roundHalfEven a b := by
  unfold roundHalfEven
  simp only
  have hq : M ≤ a / b := (Nat.le_div_iff_mul_le hb).mpr h
  split_ifs <;> omega

theorem roundHalfEven_tie (a b : ℕ) (hb : 0 < b)
    (h : 2 * (roundHalfEven a b * b) = 2 * a + b ∨ 2 * a = 2 * (roundHalfEven a b * b) + b) :
    roundHalfEven a b % 2 = 0 := by
  unfold roundHalfEven at h ⊢
  simp only at h ⊢
  have hdm := Nat.div_add_mod a b
  have hr := Nat.mod_lt a hb
  have hcomm : b * (a / b) = a / b * b := Nat.mul_comm _ _
  have h1 : (a / b + 1) * b = a / b * b + b := Nat.succ_mul _ _
  split_ifs at h ⊢ with h2 h3
  · omega
  · rw [h1] at h; omega
  · omega

/-- The significand `n` and the exponent `E` that `roundQuot` computes for the
quotient `N / D * 2^s`: `2^E` is the unit in the last place at the quotient, `n`
is the quotient in such units rounded to the nearest integer, to the even one
from halfway, and it has at most 53 bits. -/
theorem roundQuot_parts (N D : ℕ) (s : ℤ) (hN : 0 < N) (hD : 0 < D) (n : ℕ) (E : ℤ)
    (hE : max (ilog2Quot N D + s - 52) (-1074) = E)
    (hn : roundHalfEven (scale N D (s - E)).1 (scale N D (s - E)).2 = n) :
    -1074 ≤ E ∧ (N : ℚ) / D * 2 ^ s < 2 ^ (E + 53) ∧
    (-1074 < E → 2 ^ (E + 52) ≤ (N : ℚ) / D * 2 ^ s) ∧
    |(n : ℚ) * 2 ^ E - (N : ℚ) / D * 2 ^ s| ≤ 2 ^ E / 2 ∧
    (|(n : ℚ) * 2 ^ E - (N : ℚ) / D * 2 ^ s| = 2 ^ E / 2 → n % 2 = 0) ∧
    n ≤ 2 ^ 53 := by
  have hpos := scale_pos N D (s - E) hD
  have hposq : (0 : ℚ) < ((scale N D (s - E)).2 : ℚ) := by exact_mod_cast hpos
  have hv := scale_val N D (s - E) hD
  have hlt := ilog2Quot_lt N D hN hD
  have hle := ilog2Quot_le N D hN hD
  have h2E : (0 : ℚ) < 2 ^ E := by positivity
  have h2s : (0 : ℚ) < 2 ^ s := by positivity
  have hval : (N : ℚ) / D * 2 ^ s
      = ((scale N D (s - E)).1 : ℚ) / ((scale N D (s - E)).2 : ℚ) * 2 ^ E := by
    rw [hv, mul_assoc, ← zpow_add₀ (by norm_num : (2 : ℚ) ≠ 0)]
    congr 2; ring
  obtain ⟨hn1, hn2⟩ := roundHalfEven_near (scale N D (s - E)).1 (scale N D (s - E)).2 hpos
  rw [hn] at hn1 hn2
  have hEge : ilog2Quot N D + s - 52 ≤ E := by rw [← hE]; exact le_max_left _ _
  have ha : ((scale N D (s - E)).1 : ℚ)
      = ((scale N D (s - E)).1 : ℚ) / ((scale N D (s - E)).2 : ℚ)
        * ((scale N D (s - E)).2 : ℚ) := by
    field_simp
  refine ⟨?_, ?_, ?_, ?_, ?_, ?_⟩
  · rw [← hE]; exact le_max_right _ _
  · calc (N : ℚ) / D * 2 ^ s < 2 ^ (ilog2Quot N D + 1) * 2 ^ s :=
          mul_lt_mul_of_pos_right hlt h2s
      _ = 2 ^ (ilog2Quot N D + 1 + s) := by
          rw [← zpow_add₀ (by norm_num : (2 : ℚ) ≠ 0)]
      _ ≤ 2 ^ (E + 53) := by
          apply zpow_le_zpow_right₀ (by norm_num)
          omega
  · intro hnorm
    have hEeq : E = ilog2Quot N D + s - 52 := by
      rcases max_choice (ilog2Quot N D + s - 52) (-1074) with hc | hc
      · rw [← hE, hc]
      · rw [hc] at hE; omega
    calc (2 : ℚ) ^ (E + 52) = 2 ^ (ilog2Quot N D + s) := by
          congr 1; omega
      _ = 2 ^ ilog2Quot N D * 2 ^ s := by
          rw [zpow_add₀ (by norm_num : (2 : ℚ) ≠ 0)]
      _ ≤ (N : ℚ) / D * 2 ^ s := mul_le_mul_of_nonneg_right hle h2s.le
  · rw [hval, ← sub_mul, abs_mul, abs_of_pos h2E]
    rw [show (2 : ℚ) ^ E / 2 = 1 / 2 * 2 ^ E by ring]
    apply mul_le_mul_of_nonneg_right _ h2E.le
    rw [abs_le]
    have e1 : (2 : ℚ) * (n * ((scale N D (s - E)).2 : ℚ))
        ≤ 2 * ((scale N D (s - E)).1 : ℚ) + ((scale N D (s - E)).2 : ℚ) := by exact_mod_cast hn1
    have e2 : (2 : ℚ) * ((scale N D (s - E)).1 : ℚ)
        ≤ 2 * (n * ((scale N D (s - E)).2 : ℚ)) + ((scale N D (s - E)).2 : ℚ) := by
      exact_mod_cast hn2
    constructor
    · apply le_of_mul_le_mul_right _ hposq
      rw [sub_mul, ← ha]
      linarith
    · apply le_of_mul_le_mul_right _ hposq
      rw [sub_mul, ← ha]
      linarith
  · intro htie
    rw [hval, ← sub_mul, abs_mul, abs_of_pos h2E,
      show (2 : ℚ) ^ E / 2 = 1 / 2 * 2 ^ E by ring] at htie
    have h' := mul_right_cancel₀ h2E.ne' htie
    rw [← hn]
    apply roundHalfEven_tie _ _ hpos
    rw [hn]
    rcases (abs_eq (by norm_num : (0 : ℚ) ≤ 1 / 2)).mp h' with h1 | h1
    · left
      have h2 : ((n : ℚ) - ((scale N D (s - E)).1 : ℚ) / ((scale N D (s - E)).2 : ℚ))
          * ((scale N D (s - E)).2 : ℚ) = 1 / 2 * ((scale N D (s - E)).2 : ℚ) := by rw [h1]
      rw [sub_mul, ← ha] at h2
      have h3 : (2 : ℚ) * (n * ((scale N D (s - E)).2 : ℚ))
          = 2 * ((scale N D (s - E)).1 : ℚ) + ((scale N D (s - E)).2 : ℚ) := by linarith
      exact_mod_cast h3
    · right
      have h2 : ((n : ℚ) - ((scale N D (s - E)).1 : ℚ) / ((scale N D (s - E)).2 : ℚ))
          * ((scale N D (s - E)).2 : ℚ) = -(1 / 2) * ((scale N D (s - E)).2 : ℚ) := by rw [h1]
      rw [sub_mul, ← ha] at h2
      have h3 : (2 : ℚ) * ((scale N D (s - E)).1 : ℚ)
          = 2 * (n * ((scale N D (s - E)).2 : ℚ)) + ((scale N D (s - E)).2 : ℚ) := by linarith
      exact_mod_cast h3
  · rw [← hn]
    apply roundHalfEven_le _ _ _ hpos
    have : (N : ℚ) / D * 2 ^ (s - E) ≤ 2 ^ (53 : ℤ) := by
      calc (N : ℚ) / D * 2 ^ (s - E)
          ≤ 2 ^ (ilog2Quot N D + 1) * 2 ^ (s - E) := by
            apply mul_le_mul_of_nonneg_right hlt.le; positivity
        _ = 2 ^ (ilog2Quot N D + 1 + (s - E)) := by
            rw [← zpow_add₀ (by norm_num : (2 : ℚ) ≠ 0)]
        _ ≤ 2 ^ (53 : ℤ) := by
            apply zpow_le_zpow_right₀ (by norm_num)
            omega
    rw [← hv, div_le_iff₀ hposq] at this
    exact_mod_cast this

/-- From the pieces to the rounding: past the largest exponent, or when the
significand reaches `2^53` there, the quotient is at least `2^1024 - 2^970`;
otherwise `n * 2^E` is the double nearest to it. -/
theorem roundsTo_of_parts (x : ℚ) (n : ℕ) (E : ℤ)
    (h1 : -1074 ≤ E) (h2 : x < 2 ^ (E + 53)) (h3 : -1074 < E → 2 ^ (E + 52) ≤ x)
    (h4 : |(n : ℚ) * 2 ^ E - x| ≤ 2 ^ E / 2)
    (h5 : |(n : ℚ) * 2 ^ E - x| = 2 ^ E / 2 → n % 2 = 0) (h6 : n ≤ 2 ^ 53) :
    (971 < E ∨ (E = 971 ∧ 2 ^ 53 ≤ n) → (2 : ℚ) ^ (1024 : ℤ) - 2 ^ (970 : ℤ) ≤ x) ∧
    (¬ (971 < E ∨ (E = 971 ∧ 2 ^ 53 ≤ n)) → IsNearestDouble x n E) := by
  have hsplit : (2 : ℚ) ^ (1024 : ℤ) = 2 ^ (53 : ℕ) * 2 ^ (971 : ℤ) := by
    rw [← zpow_natCast, ← zpow_add₀ (by norm_num : (2 : ℚ) ≠ 0)]; rfl
  have hhalf : (2 : ℚ) ^ (971 : ℤ) / 2 = 2 ^ (970 : ℤ) := by
    rw [show (971 : ℤ) = 970 + 1 by norm_num, zpow_add₀ (by norm_num : (2 : ℚ) ≠ 0)]
    simp
  have h6' : (n : ℚ) ≤ 2 ^ (53 : ℕ) := by exact_mod_cast h6
  constructor
  · rintro (hbig | ⟨hE, hn⟩)
    · have h7 := h3 (by omega)
      have h8 : (2 : ℚ) ^ (1024 : ℤ) ≤ 2 ^ (E + 52) :=
        zpow_le_zpow_right₀ (by norm_num) (by omega)
      have h9 : (0 : ℚ) < 2 ^ (970 : ℤ) := by positivity
      linarith
    · subst hE
      rw [abs_le, hhalf] at h4
      have hn' : (2 : ℚ) ^ (53 : ℕ) ≤ (n : ℚ) := by exact_mod_cast hn
      have h10 : (2 : ℚ) ^ (53 : ℕ) * 2 ^ (971 : ℤ) ≤ (n : ℚ) * 2 ^ (971 : ℤ) :=
        mul_le_mul_of_nonneg_right hn' (by positivity)
      rw [hsplit]
      linarith [h4.2]
  · intro hov
    refine ⟨h1, h2, h3, ?_, h4, h5⟩
    rw [not_or, not_and] at hov
    obtain ⟨hE, hn⟩ := hov
    have hE' : E ≤ 971 := not_lt.mp hE
    rcases eq_or_lt_of_le hE' with heq | hlt
    · have hn3 : (n : ℚ) < 2 ^ (53 : ℕ) := by exact_mod_cast not_le.mp (hn heq)
      rw [heq, hsplit]
      exact mul_lt_mul_of_pos_right hn3 (by positivity)
    · calc (n : ℚ) * 2 ^ E ≤ (2 : ℚ) ^ (53 : ℕ) * 2 ^ E :=
            mul_le_mul_of_nonneg_right h6' (by positivity)
        _ = 2 ^ ((53 : ℤ) + E) := by
            rw [← zpow_natCast, ← zpow_add₀ (by norm_num : (2 : ℚ) ≠ 0)]; rfl
        _ < 2 ^ (1024 : ℤ) := by
            apply zpow_lt_zpow_right₀ (by norm_num)
            omega

/-- The quotient `roundQuot` returns for positive `N` and `D` is the exact one
rounded to the nearest double, ties to even, or `+∞` on overflow. -/
theorem roundQuot_roundsTo (N D : ℕ) (s : ℤ) (hN : 0 < N) (hD : 0 < D) :
    RoundsTo ((N : ℚ) / D * 2 ^ s) (roundQuot false N D s) := by
  obtain ⟨h1, h2, h3, h4, h5, h6⟩ := roundQuot_parts N D s hN hD _ _ rfl rfl
  obtain ⟨hinf, hfin⟩ := roundsTo_of_parts _ _ _ h1 h2 h3 h4 h5 h6
  unfold roundQuot
  simp only [hN.ne', if_false]
  split_ifs with hov
  · exact hinf hov
  · exact hfin hov

end JSNumber

/-- A finite Number that is greater than zero is `m * 2^e` with `m > 0`. -/
theorem eq_fin_of_pos {x : JSNumber} (h : x.isFinite = true ∧ x.gtZero = true) :
    ∃ m e, x = .fin false m e ∧ 0 < m := by
  cases x with
  | nan => simp [JSNumber.isFinite] at h
  | inf neg => simp [JSNumber.isFinite] at h
  | fin neg m e =>
    cases neg with
    | true => simp [JSNumber.gtZero] at h
    | false => exact ⟨m, e, rfl, by simpa [JSNumber.gtZero] using h.2⟩

/-! ## Facts about `toFixed` and the quotients of the workout classes -/

theorem decDigits_ne_nil (n : ℕ) : decDigits n ≠ [] := by
  by_cases h : n < 10
  · rw [decDigits_small h]; simp
  · rw [decDigits_step (Nat.not_lt.mp h)]; simp

/-- The decimal digits of a number start with a zero only for the number zero. -/
theorem decDigits_head (n : ℕ) : (decDigits n).head? = some '0' → n = 0 := by
  induction n using Nat.strong_induction_on with
  | _ n ih =>
    intro h
    by_cases hlt : n < 10
    · rw [decDigits_small hlt] at h
      have h' : digitChar n = digitChar 0 := by simpa using h
      exact digitChar_inj hlt (by norm_num) h'
    · have h10 := Nat.not_lt.mp hlt
      rw [decDigits_step h10, List.head?_append_of_ne_nil _ (decDigits_ne_nil _)] at h
      have := ih (n / 10) (by omega) h
      omega

/-- The text `toFixed` writes for the integer `n` with `f ≥ 1` digits after the
point has the form of a numeral with exactly `f` fraction digits. -/
theorem fixedDigits_isFixedNumeral (n f : ℕ) (hf : 0 < f) :
    IsFixedNumeral f (String.mk (JSNumber.fixedDigits n f)) := by
  obtain ⟨hall, -⟩ := decDigits_spec n
  obtain ⟨m, hm, hlen, hmall, hhead⟩ : ∃ m : List Char,
      (if (decDigits n).length ≤ f
        then List.replicate (f + 1 - (decDigits n).length) '0' ++ decDigits n
        else decDigits n) = m ∧ f < m.length ∧ AllDigits m ∧
        (m.head? = some '0' → m.length = f + 1) := by
    refine ⟨_, rfl, ?_, ?_, ?_⟩
    · split_ifs with h
      · simp; omega
      · omega
    · split_ifs with h
      · intro c hc
        rcases List.mem_append.mp hc with hc | hc
        · exact allDigits_replicate_zero _ c hc
        · exact hall c hc
      · exact hall
    · split_ifs with h
      · intro _; simp; omega
      · intro h0
        have hn := decDigits_head n h0
        subst hn
        have : (decDigits 0).length = 1 := rfl
        omega
  have hfix : JSNumber.fixedDigits n f =
      m.take (m.length - f) ++ '.' :: m.drop (m.length - f) := by
    simp only [JSNumber.fixedDigits, hf.ne', if_false, hm]
  refine ⟨m.take (m.length - f), m.drop (m.length - f), by rw [hfix], ?_, ?_, ?_, ?_, ?_⟩
  · exact fun c hc => hmall c (List.mem_of_mem_take hc)
  · exact fun c hc => hmall c (List.mem_of_mem_drop hc)
  · rw [List.length_drop]; omega
  · intro hnil
    have := congrArg List.length hnil
    rw [List.length_take] at this
    simp at this
    omega
  · intro h0
    cases m with
    | nil => simp at hlen
    | cons c cs =>
      have hpos : 0 < (c :: cs).length - f := by omega
      obtain ⟨k, hk⟩ : ∃ k, (c :: cs).length - f = k + 1 := ⟨_, (Nat.succ_pred_eq_of_pos hpos).symm⟩
      rw [hk, List.take_succ_cons] at h0 ⊢
      have hc : c = '0' := by simpa using h0
      have hl := hhead (by simp [hc])
      have hk0 : k = 0 := by omega
      rw [hk0, hc]; rfl

/-- What `toFixed(f)` returns for a non-negative finite Number, for `f ≥ 1`: below
`10^21` the numeral with `f` fraction digits of the Number rounded to `f` decimal
places, from there on the runtime's numeral of the Number. -/
theorem toFixed_shows (rt : Runtime) (f : ℕ) (hf : 0 < f) (n : ℕ) (E : ℤ) :
    ((n : ℚ) * 2 ^ E < 10 ^ 21 →
      IsFixedNumeral f ((JSNumber.fin false n E).toFixed rt f) ∧
      numeralValue ((JSNumber.fin false n E).toFixed rt f)
        = roundDecimal f ((n : ℚ) * 2 ^ E)) ∧
    ((10 : ℚ) ^ 21 ≤ (n : ℚ) * 2 ^ E →
      (JSNumber.fin false n E).toFixed rt f = rt.numberToString n E) := by
  have hempty : ∀ s : String, "" ++ s = s := by
    intro s
    apply String.ext
    simp
  constructor
  · intro hlt
    have hbig : JSNumber.geTenPow21 n E = false := by
      rcases Bool.eq_false_or_eq_true (JSNumber.geTenPow21 n E) with hb | hb
      · exact absurd ((JSNumber.geTenPow21_iff n E).mp hb) (not_le.mpr hlt)
      · exact hb
    have hstr : (JSNumber.fin false n E).toFixed rt f
        = String.mk (JSNumber.fixedDigits (JSNumber.fixedInt n E f) f) := by
      simp [JSNumber.toFixed, hbig, hempty]
    rw [hstr]
    exact ⟨fixedDigits_isFixedNumeral _ f hf, toFixed_value n E f⟩
  · intro hge
    have hbig := (JSNumber.geTenPow21_iff n E).mpr hge
    simp [JSNumber.toFixed, hbig, hempty]

/-- The value of a positive finite Number. -/
theorem toRat_fin (m : ℕ) (e : ℤ) : (JSNumber.fin false m e).toRat = (m : ℚ) * 2 ^ e := by
  simp [JSNumber.toRat]

/-- The quotient of two positive finite Numbers is their exact quotient rounded. -/
theorem div_roundsTo (m m' : ℕ) (e e' : ℤ) (hm : 0 < m) (hm' : 0 < m') :
    RoundsTo (((m : ℚ) * 2 ^ e) / ((m' : ℚ) * 2 ^ e'))
      ((JSNumber.fin false m e).div (.fin false m' e')) := by
  have hdiv : (JSNumber.fin false m e).div (.fin false m' e')
      = JSNumber.roundQuot false m m' (e - e') := by
    simp [JSNumber.div, hm'.ne']
  have hx : ((m : ℚ) * 2 ^ e) / ((m' : ℚ) * 2 ^ e') = (m : ℚ) / m' * 2 ^ (e - e') := by
    rw [zpow_sub₀ (by norm_num : (2 : ℚ) ≠ 0)]
    have h1 : (m' : ℚ) ≠ 0 := by exact_mod_cast hm'.ne'
    have h2 : (2 : ℚ) ^ e' ≠ 0 := by positivity
    field_simp
  rw [hdiv, hx]
  exact JSNumber.roundQuot_roundsTo m m' (e - e') hm hm'

/-- The Number of the literal `60`. -/
theorem ofNat_sixty : JSNumber.ofNat 60 = .fin false 8444249301319680 (-47) := by decide

/-- Dividing a positive finite Number by `60` rounds its sixtieth. -/
theorem div_sixty_roundsTo (m : ℕ) (e : ℤ) (hm : 0 < m) :
    RoundsTo (((m : ℚ) * 2 ^ e) / 60) ((JSNumber.fin false m e).div (JSNumber.ofNat 60)) := by
  have h := div_roundsTo m 8444249301319680 e (-47) hm (by norm_num)
  have h60 : ((8444249301319680 : ℕ) : ℚ) * 2 ^ (-47 : ℤ) = 60 := by
    rw [zpow_neg, ← div_eq_mul_inv, div_eq_iff (by positivity)]
    norm_num
  rw [h60] at h
  rw [ofNat_sixty]
  exact h

/-- A Number that some positive real rounds to is `+∞` or finite and not negative. -/
theorem roundsTo_cases {x : ℚ} {y : JSNumber} (h : RoundsTo x y) :
    y = .inf false ∨ ∃ n E, y = .fin false n E := by
  cases y with
  | nan => exact absurd h (by simp [RoundsTo])
  | inf neg =>
    cases neg with
    | true => exact absurd h (by simp [RoundsTo])
    | false => exact Or.inl rfl
  | fin neg n E =>
    cases neg with
    | true => exact absurd h (by simp [RoundsTo])
    | false => exact Or.inr ⟨n, E, rfl⟩

/-! ## Facts about the constructors and the controller -/

theorem running_new_ok (rt : Runtime) (date : JSDate) (now : ℕ) (cords : JSValue)
    (d t c : JSNumber) :
    ∃ props, Running.new rt date now cords d t c = .ok (.object props) := ⟨_, rfl⟩

theorem cycling_new_ok (rt : Runtime) (date : JSDate) (now : ℕ) (cords : JSValue)
    (d t c : JSNumber) :
    ∃ props, Cycling.new rt date now cords d t c = .ok (.object props) := ⟨_, rfl⟩

theorem runningValid_iff (inp : FormInput) :
    RunningValid inp ↔
      (!validInputs [inp.distance, inp.duration, inp.cadence]
        || !allPositive [inp.distance, inp.duration, inp.cadence]) = false := by
  simp [RunningValid, validInputs, allPositive, and_assoc]

theorem cyclingValid_iff (inp : FormInput) :
    CyclingValid inp ↔
      (!validInputs [inp.distance, inp.duration, inp.elevation]
        || !allPositive [inp.distance, inp.duration]) = false := by
  simp [CyclingValid, validInputs, allPositive, and_assoc]

/-- A primitive value has a string. -/
theorem isPrimitive_not_throws {v : JSValue} (h : v.isPrimitive = true) :
    v.toStringThrows = false := by
  cases v <;> first | rfl | exact absurd h (by simp [JSValue.isPrimitive])

/-- The fields the template interpolates are among the shown ones. -/
theorem templateFields_shown (r : JSValue) : ∀ k ∈ App.templateFields r, k ∈ shownFields := by
  intro k hk
  unfold App.templateFields at hk
  split_ifs at hk <;>
    simp only [List.cons_append, List.nil_append, List.mem_cons, List.mem_singleton,
      List.not_mem_nil, or_false] at hk <;>
    rcases hk with rfl | rfl | rfl | rfl | rfl | rfl | rfl <;> decide

/-- Rendering a plain record inserts its entry. -/
theorem renderWorkout_plain (r : JSValue) (st : State) (h : IsPlainRecord r) :
    App._renderWorkout r st = ⟨{ st with entries := r :: st.entries }, none⟩ := by
  obtain ⟨⟨props, rfl⟩, hp⟩ := h
  have hany : (App.templateFields (.object props)).any
      (fun k => ((JSValue.object props).get k).toStringThrows) = false := by
    rw [List.any_eq_false]
    intro k hk
    rw [isPrimitive_not_throws (hp k (templateFields_shown _ k hk))]
    simp
  simp [App._renderWorkout, JSValue.isNullish, hany]

/-- Marking a plain record that has a position, on an initialised map, adds its
marker. -/
theorem renderWorkoutMarker_plain (rt : Runtime) (r : JSValue) (st : State) (m : LeafletMap)
    (hm : st.map = some m) (h : IsPlainRecord r) (hpos : HasPosition r) :
    App._renderWorkoutMarker rt r st
      = ⟨{ st with map := some { m with markers := m.markers ++ [r] } }, none⟩ := by
  obtain ⟨⟨props, rfl⟩, hp⟩ := h
  obtain ⟨a, b, hc, ha, hb⟩ := hpos
  have h1 := isPrimitive_not_throws (hp "type" (by decide))
  have h2 := isPrimitive_not_throws (hp "description" (by decide))
  simp [App._renderWorkoutMarker, JSValue.isNullish, hm, hc, App.convertThrows,
    App.acceptsPosition, App.isPosition, ha, hb, h1, h2]

/-- What `_newWorkout` does once a workout object has been built that is a plain
record with a position. -/
theorem newWorkout_built (rt : Runtime) (date : JSDate) (now : ℕ) (inp : FormInput)
    (st : State) (ev : LatLng) (m : LeafletMap) (ws : List JSValue) (w : JSValue)
    (hev : st.mapEvent = some ev) (hmap : st.map = some m) (hws : st.workouts = .array ws)
    (hb : App.buildWorkout rt date now inp (.array [.number ev.lat, .number ev.lng])
      = .built w)
    (hp : IsPlainRecord w) (hpos : HasPosition w) :
    App._newWorkout rt date now inp st =
      ⟨{ st with workouts := .array (ws ++ [w]),
                 entries := w :: st.entries,
                 map := some { m with markers := m.markers ++ [w] },
                 formHidden := true,
                 storage := some (rt.stringify (.array (ws ++ [w]))) }, none⟩ := by
  simp only [App._newWorkout, hev, hb, hws]
  rw [renderWorkout_plain w _ hp]
  simp only []
  rw [renderWorkoutMarker_plain rt w
    { st with mapEvent := some ev, workouts := .array (ws ++ [w]), entries := w :: st.entries }
    m hmap hp hpos]
  simp [App._setLocalStorage, App._hideForm]

/-- The workout `new Running` builds at a click is a plain record with a position. -/
theorem running_new_plain (rt : Runtime) (date : JSDate) (now : ℕ) (ev : LatLng)
    (d t c : JSNumber) (w : JSValue)
    (h : Running.new rt date now (cordsOf ev) d t c = .ok w) :
    IsPlainRecord w ∧ HasPosition w := by
  have hw : Running.new rt date now (cordsOf ev) d t c = .ok (.object
      (Workout.new date now (cordsOf ev) d t ++ [("cadence", .number c),
        ("type", .string "running"), ("pace", .string (Running.calcPace rt d t)),
        ("description", .string ("Running on " ++ monthName date ++ " "
          ++ String.mk (decDigits date.day)))])) := rfl
  rw [hw] at h
  cases h
  refine ⟨⟨⟨_, rfl⟩, ?_⟩, ev.lat, ev.lng, rfl, ev.finite.1, ev.finite.2⟩
  intro k hk
  simp only [shownFields, List.mem_cons, List.mem_singleton, List.not_mem_nil, or_false] at hk
  rcases hk with rfl | rfl | rfl | rfl | rfl | rfl | rfl | rfl | rfl <;> rfl

/-- The workout `new Cycling` builds at a click is a plain record with a position. -/
theorem cycling_new_plain (rt : Runtime) (date : JSDate) (now : ℕ) (ev : LatLng)
    (d t c : JSNumber) (w : JSValue)
    (h : Cycling.new rt date now (cordsOf ev) d t c = .ok w) :
    IsPlainRecord w ∧ HasPosition w := by
  have hw : Cycling.new rt date now (cordsOf ev) d t c = .ok (.object
      (Workout.new date now (cordsOf ev) d t ++ [("elevationGain", .number c),
        ("type", .string "cycling"), ("speed", .string (Cycling.calcSpeed rt d t)),
        ("description", .string ("Cycling on " ++ monthName date ++ " "
          ++ String.mk (decDigits date.day)))])) := rfl
  rw [hw] at h
  cases h
  refine ⟨⟨⟨_, rfl⟩, ?_⟩, ev.lat, ev.lng, rfl, ev.finite.1, ev.finite.2⟩
  intro k hk
  simp only [shownFields, List.mem_cons, List.mem_singleton, List.not_mem_nil, or_false] at hk
  rcases hk with rfl | rfl | rfl | rfl | rfl | rfl | rfl | rfl | rfl <;> rfl

theorem newWorkout_rejected (rt : Runtime) (date : JSDate) (now : ℕ) (inp : FormInput)
    (st : State) (ev : LatLng) (hev : st.mapEvent = some ev)
    (hb : App.buildWorkout rt date now inp (.array [.number ev.lat, .number ev.lng])
      = .rejected) :
    App._newWorkout rt date now inp st =
      ⟨{ st with alerts := st.alerts ++ [rejectMessage] }, none⟩ := by
  simp [App._newWorkout, hev, hb]

theorem buildWorkout_running (rt : Runtime) (date : JSDate) (now : ℕ) (inp : FormInput)
    (cords : JSValue) (htype : inp.type = "running") :
    (RunningValid inp → App.buildWorkout rt date now inp cords =
      match Running.new rt date now cords inp.distance inp.duration inp.cadence with
      | .ok w => .built w
      | .error e => .thrown e) ∧
    (¬ RunningValid inp → App.buildWorkout rt date now inp cords = .rejected) := by
  constructor
  · intro h
    have h' := (runningValid_iff inp).mp h
    rw [App.buildWorkout, if_pos htype, h']
    rfl
  · intro h
    have h' : (!validInputs [inp.distance, inp.duration, inp.cadence]
        || !allPositive [inp.distance, inp.duration, inp.cadence]) = true := by
      rw [runningValid_iff] at h
      rcases Bool.eq_false_or_eq_true (!validInputs [inp.distance, inp.duration, inp.cadence]
        || !allPositive [inp.distance, inp.duration, inp.cadence]) with hb | hb
      · exact hb
      · exact absurd hb h
    rw [App.buildWorkout, if_pos htype, if_pos h']

theorem buildWorkout_cycling (rt : Runtime) (date : JSDate) (now : ℕ) (inp : FormInput)
    (cords : JSValue) (htype : inp.type = "cycling") :
    (CyclingValid inp → App.buildWorkout rt date now inp cords =
      match Cycling.new rt date now cords inp.distance inp.duration inp.elevation with
      | .ok w => .built w
      | .error e => .thrown e) ∧
    (¬ CyclingValid inp → App.buildWorkout rt date now inp cords = .rejected) := by
  have hne : ¬ (inp.type = "running") := by rw [htype]; decide
  constructor
  · intro h
    have h' := (cyclingValid_iff inp).mp h
    rw [App.buildWorkout, if_neg hne, if_pos htype, h']
    rfl
  · intro h
    have h' : (!validInputs [inp.distance, inp.duration, inp.elevation]
        || !allPositive [inp.distance, inp.duration]) = true := by
      rw [cyclingValid_iff] at h
      rcases Bool.eq_false_or_eq_true (!validInputs [inp.distance, inp.duration, inp.elevation]
        || !allPositive [inp.distance, inp.duration]) with hb | hb
      · exact hb
      · exact absurd hb h
    rw [App.buildWorkout, if_neg hne, if_pos htype, if_pos h']

theorem parse_storedTwo : JSON.parse storedTwo = .ok (.array recordsTwo) := by rfl

/-- Rendering a list of plain records puts them in the list, the last one first. -/
theorem forEach_renderWorkout (rs : List JSValue) : ∀ (st : State),
    (∀ r ∈ rs, IsPlainRecord r) →
    forEach App._renderWorkout rs st = ⟨{ st with entries := rs.reverse ++ st.entries }, none⟩ := by
  induction rs with
  | nil => intro st _; rfl
  | cons r rs ih =>
    intro st h
    have hr := renderWorkout_plain r st (h r (List.mem_cons_self _ _))
    have := ih { st with entries := r :: st.entries } (fun x hx => h x (List.mem_cons_of_mem _ hx))
    simp [forEach, hr, this]

/-- Marking a list of plain records that have a position, on an initialised map,
adds their markers in order. -/
theorem forEach_renderWorkoutMarker (rt : Runtime) (rs : List JSValue) :
    ∀ (st : State) (m : LeafletMap),
    st.map = some m → (∀ r ∈ rs, IsPlainRecord r ∧ HasPosition r) →
    forEach (App._renderWorkoutMarker rt) rs st
      = ⟨{ st with map := some { m with markers := m.markers ++ rs } }, none⟩ := by
  induction rs with
  | nil =>
    intro st m hm _
    simp [forEach, ← hm]
  | cons r rs ih =>
    intro st m hm h
    obtain ⟨hp, hpos⟩ := h r (List.mem_cons_self _ _)
    have hr := renderWorkoutMarker_plain rt r st m hm hp hpos
    have := ih { st with map := some { m with markers := m.markers ++ [r] } }
      { m with markers := m.markers ++ [r] } rfl (fun x hx => h x (List.mem_cons_of_mem _ hx))
    simp [forEach, hr, this]

theorem getLocalStorage_array (st : State) (s : String) (rs : List JSValue)
    (hs : st.storage = some s) (hparse : JSON.parse s = .ok (.array rs))
    (hrec : ∀ r ∈ rs, IsPlainRecord r) :
    App._getLocalStorage st
      = ⟨{ st with workouts := .array rs, entries := rs.reverse ++ st.entries }, none⟩ := by
  simp [App._getLocalStorage, hs, hparse, JSValue.truthy, forEach_renderWorkout rs _ hrec]

theorem getLocalStorage_absent (st : State) (hs : st.storage = none) :
    App._getLocalStorage st = ⟨st, none⟩ := by
  have : JSON.parse "null" = .ok .null := by rfl
  simp [App._getLocalStorage, hs, this, JSValue.truthy]

/-- A running submission with valid fields, made while a click is pending on an
initialised map, runs `_newWorkout` to its end. -/
theorem newWorkout_of_valid_running (rt : Runtime) (date : JSDate) (now : ℕ)
    (inp : FormInput) (st : State) (ev : LatLng) (m : LeafletMap) (ws : List JSValue)
    (w : JSValue) (htype : inp.type = "running") (hev : st.mapEvent = some ev)
    (hmap : st.map = some m) (hws : st.workouts = .array ws) (hval : RunningValid inp)
    (hnew : Running.new rt date now (cordsOf ev) inp.distance inp.duration inp.cadence = .ok w) :
    App._newWorkout rt date now inp st =
      ⟨{ st with workouts := .array (ws ++ [w]), entries := w :: st.entries,
                 map := some { m with markers := m.markers ++ [w] }, formHidden := true,
                 storage := some (rt.stringify (.array (ws ++ [w]))) }, none⟩ := by
  obtain ⟨hp, hpos⟩ := running_new_plain rt date now ev inp.distance inp.duration inp.cadence w
    hnew
  have hb := (buildWorkout_running rt date now inp (cordsOf ev) htype).1 hval
  rw [hnew] at hb
  exact newWorkout_built rt date now inp st ev m ws w hev hmap hws hb hp hpos

/-- A cycling submission with valid fields, made while a click is pending on an
initialised map, runs `_newWorkout` to its end. -/
theorem newWorkout_of_valid_cycling (rt : Runtime) (date : JSDate) (now : ℕ)
    (inp : FormInput) (st : State) (ev : LatLng) (m : LeafletMap) (ws : List JSValue)
    (w : JSValue) (htype : inp.type = "cycling") (hev : st.mapEvent = some ev)
    (hmap : st.map = some m) (hws : st.workouts = .array ws) (hval : CyclingValid inp)
    (hnew : Cycling.new rt date now (cordsOf ev) inp.distance inp.duration inp.elevation
      = .ok w) :
    App._newWorkout rt date now inp st =
      ⟨{ st with workouts := .array (ws ++ [w]), entries := w :: st.entries,
                 map := some { m with markers := m.markers ++ [w] }, formHidden := true,
                 storage := some (rt.stringify (.array (ws ++ [w]))) }, none⟩ := by
  obtain ⟨hp, hpos⟩ := cycling_new_plain rt date now ev inp.distance inp.duration
    inp.elevation w hnew
  have hb := (buildWorkout_cycling rt date now inp (cordsOf ev) htype).1 hval
  rw [hnew] at hb
  exact newWorkout_built rt date now inp st ev m ws w hev hmap hws hb hp hpos

/-- A submission whose fields fail the check of its type, made while a click is
pending, is rejected. -/
theorem rejected_of_build_rejected (rt : Runtime) (date : JSDate) (now : ℕ)
    (inp : FormInput) (st : State) (ev : LatLng) (hev : st.mapEvent = some ev)
    (hb : App.buildWorkout rt date now inp (cordsOf ev) = .rejected) :
    Rejected st (App._newWorkout rt date now inp st) := by
  rw [newWorkout_rejected rt date now inp st ev hev hb]
  exact ⟨rfl, rfl, rfl, rfl, rfl, rfl⟩

/-- The state an accepted call leaves is not the state a rejected call leaves, and the
other way round. -/
theorem accepted_not_rejected (rt : Runtime) (st : State) (w : JSValue) (r : Result)
    (ha : Accepted rt st w r) : ¬ Rejected st r := by
  intro hr
  have h1 := ha.2.1
  have h2 := hr.2.1
  rw [h1] at h2
  simp at h2

theorem sampleRunning_valid : RunningValid sampleRunning := by
  simp only [RunningValid]; decide

theorem sampleCycling_valid : CyclingValid sampleCycling := by
  simp only [CyclingValid]; decide

theorem recordsTwo_plain : ∀ r ∈ recordsTwo, IsPlainRecord r ∧ HasPosition r := by
  intro r hr
  simp only [recordsTwo, List.mem_cons, List.mem_singleton, List.not_mem_nil, or_false] at hr
  rcases hr with rfl | rfl
  · exact ⟨⟨⟨_, rfl⟩, by decide⟩, _, _, rfl, by decide, by decide⟩
  · exact ⟨⟨⟨_, rfl⟩, by decide⟩, _, _, rfl, by decide, by decide⟩

theorem getLocalStorage_falsy (st : State) (s : String) (v : JSValue)
    (hs : st.storage = some s) (hparse : JSON.parse s = .ok v) (hv : v.truthy = false) :
    App._getLocalStorage st = ⟨st, none⟩ := by
  simp [App._getLocalStorage, hs, hparse, hv]

theorem app_new_eq (formHidden : Bool) (entries : List JSValue) (storage : Option String) :
    App.new formHidden entries storage
      = App._getLocalStorage (App.initial formHidden entries storage) := rfl


/-! ## Facts about the sample values -/

theorem stringify_recordsTwo : sampleRuntime.stringify (.array recordsTwo) = storedTwo := by
  rfl

set_option maxRecDepth 100000 in
theorem stringify_three :
    sampleRuntime.stringify (.array (recordsTwo ++ [sampleRunningWorkout])) = storedThree := by
  rfl

set_option maxRecDepth 100000 in
theorem storedThree_ne : storedThree ≠ storedTwo := by decide


/-! ## The claims -/

/-- C1 (as the code has it): a Running workout built from finite, strictly
positive distance, duration and cadence exists; `duration / distance` is the
exact quotient rounded to the nearest double (to `+∞` on overflow), and `pace`
is that double in fixed notation: below `10^21` the numeral with two fraction
digits of the double rounded to two decimal places, from there on its runtime
numeral, and `Infinity` for `+∞`; for distance 5.2 and duration 24 the pace is
`4.62`. -/
theorem running_pace_rounded (rt : Runtime) (date : JSDate) (now : ℕ) (cords : JSValue)
    (distance duration cadence : JSNumber)
    (hd : distance.isFinite = true ∧ distance.gtZero = true)
    (ht : duration.isFinite = true ∧ duration.gtZero = true)
    (_hc : cadence.isFinite = true ∧ cadence.gtZero = true) :
    (∃ w pace, Running.new rt date now cords distance duration cadence = .ok w ∧
      w.get "pace" = .string pace ∧
      RoundsTo (duration.toRat / distance.toRat) (duration.div distance) ∧
      (∀ n E, duration.div distance = .fin false n E →
        ((n : ℚ) * 2 ^ E < 10 ^ 21 →
          IsFixedNumeral 2 pace ∧ numeralValue pace = roundDecimal 2 ((n : ℚ) * 2 ^ E)) ∧
        ((10 : ℚ) ^ 21 ≤ (n : ℚ) * 2 ^ E → pace = rt.numberToString n E)) ∧
      (duration.div distance = .inf false → pace = "Infinity")) ∧
    Running.calcPace rt (JSNumber.ofDecimal false 52 (-1)) (JSNumber.ofNat 24) = "4.62" := by
  refine ⟨?_, rfl⟩
  obtain ⟨md, ed, rfl, hmd⟩ := eq_fin_of_pos hd
  obtain ⟨mt, et, rfl, hmt⟩ := eq_fin_of_pos ht
  refine ⟨_, _, rfl, rfl, ?_, ?_, ?_⟩
  · rw [toRat_fin, toRat_fin]
    exact div_roundsTo mt md et ed hmt hmd
  · intro n E h
    simp only [Running.calcPace, h]
    exact toFixed_shows rt 2 (by norm_num) n E
  · intro h
    simp only [Running.calcPace, h]
    rfl

/-- The workout of 5.2 km in 24 min at 178 steps a minute meets the conditions of
C1; its quotient is the double `5196461108504418 * 2^-50`. -/
theorem running_pace_rounded_witness :
    ((sampleRunning.distance.isFinite = true ∧ sampleRunning.distance.gtZero = true) ∧
      (sampleRunning.duration.isFinite = true ∧ sampleRunning.duration.gtZero = true) ∧
      (sampleRunning.cadence.isFinite = true ∧ sampleRunning.cadence.gtZero = true)) ∧
    sampleRunning.duration.div sampleRunning.distance = .fin false 5196461108504418 (-50) ∧
    ((∃ w pace, Running.new sampleRuntime sampleDate 1710400000000 (cordsOf sampleClick)
        sampleRunning.distance sampleRunning.duration sampleRunning.cadence = .ok w ∧
      w.get "pace" = .string pace ∧
      RoundsTo (sampleRunning.duration.toRat / sampleRunning.distance.toRat)
        (sampleRunning.duration.div sampleRunning.distance) ∧
      (∀ n E, sampleRunning.duration.div sampleRunning.distance = .fin false n E →
        ((n : ℚ) * 2 ^ E < 10 ^ 21 →
          IsFixedNumeral 2 pace ∧ numeralValue pace = roundDecimal 2 ((n : ℚ) * 2 ^ E)) ∧
        ((10 : ℚ) ^ 21 ≤ (n : ℚ) * 2 ^ E → pace = sampleRuntime.numberToString n E)) ∧
      (sampleRunning.duration.div sampleRunning.distance = .inf false → pace = "Infinity")) ∧
    Running.calcPace sampleRuntime (JSNumber.ofDecimal false 52 (-1)) (JSNumber.ofNat 24)
      = "4.62") :=
  ⟨by decide, by decide,
    running_pace_rounded sampleRuntime sampleDate 1710400000000 (cordsOf sampleClick)
      sampleRunning.distance sampleRunning.duration sampleRunning.cadence
      (by decide) (by decide) (by decide)⟩

/-- C1 fails as stated: for 40 km in 167 min the quotient 4.175 is no double, the
division yields the double just below it, and the pace is `4.17`, whereas 4.175
rounded to two decimal places is 4.18; and for the least positive
double `5e-324 = 2^-1074` as distance and the duration 24 the division overflows
and the pace is `Infinity`. -/
theorem running_pace_not_exact_rounding :
    ((JSNumber.ofNat 40).isFinite = true ∧ (JSNumber.ofNat 40).gtZero = true ∧
      (JSNumber.ofNat 167).isFinite = true ∧ (JSNumber.ofNat 167).gtZero = true ∧
      (JSNumber.ofNat 178).isFinite = true ∧ (JSNumber.ofNat 178).gtZero = true) ∧
    (Running.new sampleRuntime sampleDate 1710400000000 (cordsOf sampleClick)
        (.ofNat 40) (.ofNat 167) (.ofNat 178)
      = .ok (.object [("date", .date sampleDate), ("id", .string "0400000000"),
          ("cords", cordsOf sampleClick), ("distance", .number (.ofNat 40)),
          ("duration", .number (.ofNat 167)), ("cadence", .number (.ofNat 178)),
          ("type", .string "running"), ("pace", .string "4.17"),
          ("description", .string "Running on March 14")])) ∧
    (JSNumber.ofNat 167).toRat / (JSNumber.ofNat 40).toRat = 167 / 40 ∧
    roundDecimal 2 (167 / 40) = 418 / 100 ∧
    numeralValue "4.17" = 417 / 100 ∧
    ((JSNumber.fin false 1 (-1074)).isFinite = true ∧
      (JSNumber.fin false 1 (-1074)).gtZero = true) ∧
    (∃ w, Running.new sampleRuntime sampleDate 1710400000000 (cordsOf sampleClick)
        (.fin false 1 (-1074)) (.ofNat 24) (.ofNat 178) = .ok w ∧
      w.get "pace" = .string "Infinity") := by
  refine ⟨by decide, by rfl, ?_, ?_, ?_, by decide, ⟨_, rfl, by rfl⟩⟩
  · have h1 : JSNumber.ofNat 167 = .fin false 5875790138834944 (-45) := by decide
    have h2 : JSNumber.ofNat 40 = .fin false 5629499534213120 (-47) := by decide
    rw [h1, h2, toRat_fin, toRat_fin]
    norm_num
  · unfold roundDecimal
    rw [show ((167 : ℚ) / 40 * 10 ^ 2 + 1 / 2) = ((418 : ℤ) : ℚ) by norm_num, Int.floor_intCast]
    norm_num
  · have h : numeralValue "4.17" = ((4 : ℕ) : ℚ) + ((17 : ℕ) : ℚ) / 10 ^ 2 := rfl
    rw [h]
    norm_num

/-- C2 (as the code has it): a Cycling workout built from finite, strictly
positive distance and duration exists; `duration / 60` is the exact sixtieth
rounded to the nearest double, `distance / (duration / 60)` is the exact quotient
of the distance by that double rounded again (`+∞` when the sixtieth has
rounded to zero), and `speed` is the result in fixed notation: below `10^21` the
numeral with one fraction digit of the double rounded to one decimal place, from
there on its runtime numeral, and `Infinity` for `+∞`; for distance 27 and
duration 95 the speed is `17.1`. -/
theorem cycling_speed_rounded (rt : Runtime) (date : JSDate) (now : ℕ) (cords : JSValue)
    (distance duration elevationGain : JSNumber)
    (hd : distance.isFinite = true ∧ distance.gtZero = true)
    (ht : duration.isFinite = true ∧ duration.gtZero = true) :
    (∃ w speed, Cycling.new rt date now cords distance duration elevationGain = .ok w ∧
      w.get "speed" = .string speed ∧
      RoundsTo (duration.toRat / 60) (duration.div (JSNumber.ofNat 60)) ∧
      (∀ n E, duration.div (JSNumber.ofNat 60) = .fin false n E → 0 < n →
        RoundsTo (distance.toRat / ((n : ℚ) * 2 ^ E))
          (distance.div (duration.div (JSNumber.ofNat 60)))) ∧
      (∀ E, duration.div (JSNumber.ofNat 60) = .fin false 0 E →
        distance.div (duration.div (JSNumber.ofNat 60)) = .inf false) ∧
      (duration.div (JSNumber.ofNat 60) = .inf false →
        distance.div (duration.div (JSNumber.ofNat 60)) = .fin false 0 0) ∧
      (∀ n E, distance.div (duration.div (JSNumber.ofNat 60)) = .fin false n E →
        ((n : ℚ) * 2 ^ E < 10 ^ 21 →
          IsFixedNumeral 1 speed ∧ numeralValue speed = roundDecimal 1 ((n : ℚ) * 2 ^ E)) ∧
        ((10 : ℚ) ^ 21 ≤ (n : ℚ) * 2 ^ E → speed = rt.numberToString n E)) ∧
      (distance.div (duration.div (JSNumber.ofNat 60)) = .inf false → speed = "Infinity")) ∧
    Cycling.calcSpeed rt (JSNumber.ofNat 27) (JSNumber.ofNat 95) = "17.1" := by
  refine ⟨?_, rfl⟩
  obtain ⟨md, ed, rfl, hmd⟩ := eq_fin_of_pos hd
  obtain ⟨mt, et, rfl, hmt⟩ := eq_fin_of_pos ht
  refine ⟨_, _, rfl, rfl, ?_, ?_, ?_, ?_, ?_, ?_⟩
  · rw [toRat_fin]
    exact div_sixty_roundsTo mt et hmt
  · intro n E h hn
    rw [h, toRat_fin]
    exact div_roundsTo md n ed E hmd hn
  · intro E h
    rw [h]
    simp [JSNumber.div, hmd.ne']
  · intro h
    rw [h]
    rfl
  · intro n E h
    simp only [Cycling.calcSpeed, h]
    exact toFixed_shows rt 1 (by norm_num) n E
  · intro h
    simp only [Cycling.calcSpeed, h]
    rfl

/-- The ride of 27 km in 95 min meets the conditions of C2; its two quotients are
the doubles `7130699410003285 * 2^-52` and `4799889076539608 * 2^-48`. -/
theorem cycling_speed_rounded_witness :
    ((sampleCycling.distance.isFinite = true ∧ sampleCycling.distance.gtZero = true) ∧
      (sampleCycling.duration.isFinite = true ∧ sampleCycling.duration.gtZero = true)) ∧
    sampleCycling.duration.div (JSNumber.ofNat 60) = .fin false 7130699410003285 (-52) ∧
    sampleCycling.distance.div (sampleCycling.duration.div (JSNumber.ofNat 60))
      = .fin false 4799889076539608 (-48) ∧
    ((∃ w speed, Cycling.new sampleRuntime sampleDate 1710400000000 (cordsOf sampleClick)
        sampleCycling.distance sampleCycling.duration sampleCycling.elevation = .ok w ∧
      w.get "speed" = .string speed ∧
      RoundsTo (sampleCycling.duration.toRat / 60)
        (sampleCycling.duration.div (JSNumber.ofNat 60)) ∧
      (∀ n E, sampleCycling.duration.div (JSNumber.ofNat 60) = .fin false n E → 0 < n →
        RoundsTo (sampleCycling.distance.toRat / ((n : ℚ) * 2 ^ E))
          (sampleCycling.distance.div (sampleCycling.duration.div (JSNumber.ofNat 60)))) ∧
      (∀ E, sampleCycling.duration.div (JSNumber.ofNat 60) = .fin false 0 E →
        sampleCycling.distance.div (sampleCycling.duration.div (JSNumber.ofNat 60))
          = .inf false) ∧
      (sampleCycling.duration.div (JSNumber.ofNat 60) = .inf false →
        sampleCycling.distance.div (sampleCycling.duration.div (JSNumber.ofNat 60))
          = .fin false 0 0) ∧
      (∀ n E, sampleCycling.distance.div (sampleCycling.duration.div (JSNumber.ofNat 60))
          = .fin false n E →
        ((n : ℚ) * 2 ^ E < 10 ^ 21 →
          IsFixedNumeral 1 speed ∧ numeralValue speed = roundDecimal 1 ((n : ℚ) * 2 ^ E)) ∧
        ((10 : ℚ) ^ 21 ≤ (n : ℚ) * 2 ^ E → speed = sampleRuntime.numberToString n E)) ∧
      (sampleCycling.distance.div (sampleCycling.duration.div (JSNumber.ofNat 60))
          = .inf false → speed = "Infinity")) ∧
    Cycling.calcSpeed sampleRuntime (JSNumber.ofNat 27) (JSNumber.ofNat 95) = "17.1") :=
  ⟨by decide, by decide, by decide,
    cycling_speed_rounded sampleRuntime sampleDate 1710400000000 (cordsOf sampleClick)
      sampleCycling.distance sampleCycling.duration sampleCycling.elevation
      (by decide) (by decide)⟩

/-- C2 fails as stated: for 1 km in 400 min the exact speed is 0.15 km/h, which
rounded to one decimal place is 0.2, but the two divisions yield the double just
below 0.15 and the speed is `0.1`; and for the least positive double
`5e-324 = 2^-1074` as duration, `duration / 60` rounds to zero and the speed of
27 km is `Infinity`. -/
theorem cycling_speed_not_exact_rounding :
    ((JSNumber.ofNat 1).isFinite = true ∧ (JSNumber.ofNat 1).gtZero = true ∧
      (JSNumber.ofNat 400).isFinite = true ∧ (JSNumber.ofNat 400).gtZero = true) ∧
    (Cycling.new sampleRuntime sampleDate 1710400000000 (cordsOf sampleClick)
        (.ofNat 1) (.ofNat 400) (.ofNat 523)
      = .ok (.object [("date", .date sampleDate), ("id", .string "0400000000"),
          ("cords", cordsOf sampleClick), ("distance", .number (.ofNat 1)),
          ("duration", .number (.ofNat 400)), ("elevationGain", .number (.ofNat 523)),
          ("type", .string "cycling"), ("speed", .string "0.1"),
          ("description", .string "Cycling on March 14")])) ∧
    (JSNumber.ofNat 1).toRat / ((JSNumber.ofNat 400).toRat / 60) = 3 / 20 ∧
    roundDecimal 1 (3 / 20) = 2 / 10 ∧
    numeralValue "0.1" = 1 / 10 ∧
    ((JSNumber.fin false 1 (-1074)).isFinite = true ∧
      (JSNumber.fin false 1 (-1074)).gtZero = true ∧
      (JSNumber.ofNat 27).isFinite = true ∧ (JSNumber.ofNat 27).gtZero = true) ∧
    (JSNumber.fin false 1 (-1074)).div (JSNumber.ofNat 60) = .fin false 0 (-1074) ∧
    (∃ w, Cycling.new sampleRuntime sampleDate 1710400000000 (cordsOf sampleClick)
        (.ofNat 27) (.fin false 1 (-1074)) (.ofNat 523) = .ok w ∧
      w.get "speed" = .string "Infinity") := by
  refine ⟨by decide, by rfl, ?_, ?_, ?_, by decide, by decide, ⟨_, rfl, by rfl⟩⟩
  · have h1 : JSNumber.ofNat 1 = .fin false 4503599627370496 (-52) := by decide
    have h2 : JSNumber.ofNat 400 = .fin false 7036874417766400 (-44) := by decide
    rw [h1, h2, toRat_fin, toRat_fin]
    norm_num
  · unfold roundDecimal
    rw [show ((3 : ℚ) / 20 * 10 ^ 1 + 1 / 2) = ((2 : ℤ) : ℚ) by norm_num, Int.floor_intCast]
    norm_num
  · have h : numeralValue "0.1" = ((0 : ℕ) : ℚ) + ((1 : ℕ) : ℚ) / 10 ^ 1 := rfl
    rw [h]
    norm_num


/-- C3 (as the code has it): once a map click is pending (on an initialised map,
the collection being an array), a running submission is accepted exactly when
distance, duration and cadence are finite and strictly positive, and rejected
exactly when they are not; a rejected call leaves the collection, the list, the
markers and the stored item as they were. -/
theorem newWorkout_running_accepts_iff (rt : Runtime) (date : JSDate) (now : ℕ)
    (inp : FormInput) (st : State) (ev : LatLng) (m : LeafletMap) (ws : List JSValue)
    (htype : inp.type = "running") (hev : st.mapEvent = some ev) (hmap : st.map = some m)
    (hws : st.workouts = .array ws) :
    ((∃ w, Running.new rt date now (cordsOf ev) inp.distance inp.duration inp.cadence = .ok w ∧
        Accepted rt st w (App._newWorkout rt date now inp st)) ↔ RunningValid inp) ∧
    (Rejected st (App._newWorkout rt date now inp st) ↔ ¬ RunningValid inp) := by
  obtain ⟨props, hnew⟩ := running_new_ok rt date now (cordsOf ev) inp.distance inp.duration
    inp.cadence
  by_cases h : RunningValid inp
  · have hr := newWorkout_of_valid_running rt date now inp st ev m ws _ htype hev hmap hws h
      hnew
    have hacc : Accepted rt st (.object props) (App._newWorkout rt date now inp st) := by
      rw [hr]
      exact ⟨rfl, rfl, ws, m, hws, hmap, rfl, rfl, rfl, rfl⟩
    exact ⟨⟨fun _ => h, fun _ => ⟨_, hnew, hacc⟩⟩,
      ⟨fun hrej => absurd hrej (accepted_not_rejected rt st _ _ hacc), fun hn => absurd h hn⟩⟩
  · have hrej := rejected_of_build_rejected rt date now inp st ev hev
      ((buildWorkout_running rt date now inp (cordsOf ev) htype).2 h)
    exact ⟨⟨fun ⟨w, _, hacc⟩ => absurd hrej (accepted_not_rejected rt st w _ hacc),
      fun hv => absurd hv h⟩, ⟨fun _ => h, fun _ => hrej⟩⟩

/-- The submission `sampleRunning` in `readyState` meets the conditions of C3. -/
theorem newWorkout_running_accepts_iff_witness :
    (sampleRunning.type = "running" ∧ readyState.mapEvent = some sampleClick ∧
      readyState.map = some sampleMap ∧ readyState.workouts = .array []) ∧
    (((∃ w, Running.new sampleRuntime sampleDate 1710400000000 (cordsOf sampleClick)
          sampleRunning.distance sampleRunning.duration sampleRunning.cadence = .ok w ∧
        Accepted sampleRuntime readyState w
          (App._newWorkout sampleRuntime sampleDate 1710400000000 sampleRunning readyState))
        ↔ RunningValid sampleRunning) ∧
      (Rejected readyState
          (App._newWorkout sampleRuntime sampleDate 1710400000000 sampleRunning readyState)
        ↔ ¬ RunningValid sampleRunning)) :=
  ⟨⟨rfl, rfl, rfl, rfl⟩,
    newWorkout_running_accepts_iff sampleRuntime sampleDate 1710400000000 sampleRunning
      readyState sampleClick sampleMap [] rfl rfl rfl rfl⟩

/-- C3 fails as stated: with no map click pending, a running submission whose
fields are valid is not accepted; the call throws a TypeError. -/
theorem newWorkout_running_without_click :
    RunningValid sampleRunning ∧
    (App._newWorkout sampleRuntime sampleDate 1710400000000 sampleRunning
      (App.initial true [] none)).error = some .typeError ∧
    ¬ ∃ w, Accepted sampleRuntime (App.initial true [] none) w
      (App._newWorkout sampleRuntime sampleDate 1710400000000 sampleRunning
        (App.initial true [] none)) := by
  refine ⟨sampleRunning_valid, rfl, ?_⟩
  rintro ⟨w, herr, _⟩
  exact absurd herr (by decide)

/-- C4 (as the code has it): once a map click is pending (on an initialised map,
the collection being an array), a cycling submission is accepted exactly when
distance, duration and elevation are finite and distance and duration strictly
positive, whatever the sign of the elevation, and rejected exactly when not. -/
theorem newWorkout_cycling_accepts_iff (rt : Runtime) (date : JSDate) (now : ℕ)
    (inp : FormInput) (st : State) (ev : LatLng) (m : LeafletMap) (ws : List JSValue)
    (htype : inp.type = "cycling") (hev : st.mapEvent = some ev) (hmap : st.map = some m)
    (hws : st.workouts = .array ws) :
    ((∃ w, Cycling.new rt date now (cordsOf ev) inp.distance inp.duration inp.elevation
          = .ok w ∧
        Accepted rt st w (App._newWorkout rt date now inp st)) ↔ CyclingValid inp) ∧
    (Rejected st (App._newWorkout rt date now inp st) ↔ ¬ CyclingValid inp) := by
  obtain ⟨props, hnew⟩ := cycling_new_ok rt date now (cordsOf ev) inp.distance inp.duration
    inp.elevation
  by_cases h : CyclingValid inp
  · have hr := newWorkout_of_valid_cycling rt date now inp st ev m ws _ htype hev hmap hws h
      hnew
    have hacc : Accepted rt st (.object props) (App._newWorkout rt date now inp st) := by
      rw [hr]
      exact ⟨rfl, rfl, ws, m, hws, hmap, rfl, rfl, rfl, rfl⟩
    exact ⟨⟨fun _ => h, fun _ => ⟨_, hnew, hacc⟩⟩,
      ⟨fun hrej => absurd hrej (accepted_not_rejected rt st _ _ hacc), fun hn => absurd h hn⟩⟩
  · have hrej := rejected_of_build_rejected rt date now inp st ev hev
      ((buildWorkout_cycling rt date now inp (cordsOf ev) htype).2 h)
    exact ⟨⟨fun ⟨w, _, hacc⟩ => absurd hrej (accepted_not_rejected rt st w _ hacc),
      fun hv => absurd hv h⟩, ⟨fun _ => h, fun _ => hrej⟩⟩

/-- The submission `sampleCycling`, whose elevation is negative, meets the
conditions of C4 in `readyState`. -/
theorem newWorkout_cycling_accepts_iff_witness :
    (sampleCycling.type = "cycling" ∧ readyState.mapEvent = some sampleClick ∧
      readyState.map = some sampleMap ∧ readyState.workouts = .array []) ∧
    (((∃ w, Cycling.new sampleRuntime sampleDate 1710400000000 (cordsOf sampleClick)
          sampleCycling.distance sampleCycling.duration sampleCycling.elevation = .ok w ∧
        Accepted sampleRuntime readyState w
          (App._newWorkout sampleRuntime sampleDate 1710400000000 sampleCycling readyState))
        ↔ CyclingValid sampleCycling) ∧
      (Rejected readyState
          (App._newWorkout sampleRuntime sampleDate 1710400000000 sampleCycling readyState)
        ↔ ¬ CyclingValid sampleCycling)) :=
  ⟨⟨rfl, rfl, rfl, rfl⟩,
    newWorkout_cycling_accepts_iff sampleRuntime sampleDate 1710400000000 sampleCycling
      readyState sampleClick sampleMap [] rfl rfl rfl rfl⟩

/-- C4 fails as stated: with no map click pending, a cycling submission whose
fields are valid is not accepted; the call throws a TypeError. -/
theorem newWorkout_cycling_without_click :
    CyclingValid sampleCycling ∧
    (App._newWorkout sampleRuntime sampleDate 1710400000000 sampleCycling
      (App.initial true [] none)).error = some .typeError ∧
    ¬ ∃ w, Accepted sampleRuntime (App.initial true [] none) w
      (App._newWorkout sampleRuntime sampleDate 1710400000000 sampleCycling
        (App.initial true [] none)) := by
  refine ⟨sampleCycling_valid, rfl, ?_⟩
  rintro ⟨w, herr, _⟩
  exact absurd herr (by decide)

/-- C5 (as the code has it): the constructors check nothing; for all Numbers given
as distance, duration and cadence or elevation gain they build the workout that
carries them, with the date and id of its creation, the cords, the type, the
pace `(duration / distance).toFixed(2)` or the speed
`(distance / (duration / 60)).toFixed(1)`, and the description made of the type,
the month and the day. -/
theorem constructors_never_reject (rt : Runtime) (date : JSDate) (now : ℕ) (cords : JSValue)
    (distance duration metric : JSNumber) :
    Running.new rt date now cords distance duration metric
      = .ok (.object [("date", .date date), ("id", .string (Workout.id now)),
          ("cords", cords), ("distance", .number distance), ("duration", .number duration),
          ("cadence", .number metric), ("type", .string "running"),
          ("pace", .string ((duration.div distance).toFixed rt 2)),
          ("description", .string ("Running on " ++ monthName date ++ " "
            ++ String.mk (decDigits date.day)))]) ∧
    Cycling.new rt date now cords distance duration metric
      = .ok (.object [("date", .date date), ("id", .string (Workout.id now)),
          ("cords", cords), ("distance", .number distance), ("duration", .number duration),
          ("elevationGain", .number metric), ("type", .string "cycling"),
          ("speed", .string ((distance.div (duration.div (JSNumber.ofNat 60))).toFixed rt 1)),
          ("description", .string ("Cycling on " ++ monthName date ++ " "
            ++ String.mk (decDigits date.day)))]) :=
  ⟨rfl, rfl⟩

/-- C5 fails as stated: `new Running` with distance -1 and cadence NaN builds a
workout, and so does `new Cycling` with duration 0 and an infinite elevation gain. -/
theorem constructors_accept_bad_input :
    Running.new sampleRuntime sampleDate 1710400000000 .null
        (.ofDecimal true 1 0) (.ofNat 5) .nan
      = .ok (.object [("date", .date sampleDate), ("id", .string "0400000000"),
          ("cords", .null), ("distance", .number (.ofDecimal true 1 0)),
          ("duration", .number (.ofNat 5)), ("cadence", .number .nan),
          ("type", .string "running"), ("pace", .string "-5.00"),
          ("description", .string "Running on March 14")]) ∧
    Cycling.new sampleRuntime sampleDate 1710400000000 .null
        (.ofNat 27) (.ofNat 0) (.inf false)
      = .ok (.object [("date", .date sampleDate), ("id", .string "0400000000"),
          ("cords", .null), ("distance", .number (.ofNat 27)),
          ("duration", .number (.ofNat 0)), ("elevationGain", .number (.inf false)),
          ("type", .string "cycling"), ("speed", .string "Infinity"),
          ("description", .string "Cycling on March 14")]) := by
  constructor <;> rfl

/-- C6, the code at the failing inputs: a click on the entry of a loaded workout
before the map exists throws a TypeError, and so does a click whose id matches no
member once the map exists; the state is left as it was. -/
theorem moveToPopup_throws :
    App._moveToPopup sampleRuntime (some "0000000000") (App.new true [] (some storedTwo)).state
      = ⟨(App.new true [] (some storedTwo)).state, some .typeError⟩ ∧
    App._moveToPopup sampleRuntime (some "9999999999")
        (App._loadMap sampleRuntime (.ofNat 39) (.ofDecimal true 12 0)
          (App.new true [] (some storedTwo)).state).state
      = ⟨(App._loadMap sampleRuntime (.ofNat 39) (.ofDecimal true 12 0)
          (App.new true [] (some storedTwo)).state).state, some .typeError⟩ := by
  constructor <;> rfl

/-- C7 (as the code has it): with no stored item, or a stored item that is JSON
for a falsy value or for an array of plain records, `_getLocalStorage` does not
throw; in the first two cases it leaves the state, the collection and the list
with it, as it was; with an array it makes the records the collection and
renders each. -/
theorem getLocalStorage_returns (st : State)
    (h : st.storage = none ∨
      (∃ s v, st.storage = some s ∧ JSON.parse s = .ok v ∧ v.truthy = false) ∨
      ∃ s rs, st.storage = some s ∧ JSON.parse s = .ok (.array rs) ∧
        ∀ r ∈ rs, IsPlainRecord r) :
    (App._getLocalStorage st).error = none ∧
    (st.storage = none → (App._getLocalStorage st).state = st) ∧
    (∀ s v, st.storage = some s → JSON.parse s = .ok v → v.truthy = false →
      (App._getLocalStorage st).state = st) ∧
    (∀ s rs, st.storage = some s → JSON.parse s = .ok (.array rs) →
      (App._getLocalStorage st).state
        = { st with workouts := .array rs, entries := rs.reverse ++ st.entries }) := by
  rcases h with h | ⟨s, v, hs, hparse, hv⟩ | ⟨s, rs, hs, hparse, hrec⟩
  · rw [getLocalStorage_absent st h]
    refine ⟨rfl, fun _ => rfl, fun _ _ _ _ _ => rfl, fun s rs hs => ?_⟩
    rw [h] at hs; cases hs
  · rw [getLocalStorage_falsy st s v hs hparse hv]
    refine ⟨rfl, fun _ => rfl, fun _ _ _ _ _ => rfl, fun s' rs' hs' hparse' => ?_⟩
    rw [hs] at hs'; cases hs'
    rw [hparse] at hparse'; cases hparse'
    exact absurd hv (by simp [JSValue.truthy])
  · rw [getLocalStorage_array st s rs hs hparse hrec]
    refine ⟨rfl, fun hn => ?_, fun s' v' hs' hparse' hv' => ?_, fun s' rs' hs' hparse' => ?_⟩
    · rw [hs] at hn; cases hn
    · rw [hs] at hs'; cases hs'
      rw [hparse] at hparse'; cases hparse'
      exact absurd hv' (by simp [JSValue.truthy])
    · rw [hs] at hs'; cases hs'
      rw [hparse] at hparse'; cases hparse'
      rfl

/-- The start state with `storedTwo` in storage meets the condition of C7: the
item is JSON for the two plain records `recordsTwo`, which become the collection
and the list. -/
theorem getLocalStorage_returns_witness :
    ((App.initial true [] (some storedTwo)).storage = some storedTwo ∧
      JSON.parse storedTwo = .ok (.array recordsTwo) ∧ ∀ r ∈ recordsTwo, IsPlainRecord r) ∧
    App._getLocalStorage (App.initial true [] (some storedTwo))
      = ⟨{ App.initial true [] (some storedTwo) with
            workouts := .array recordsTwo, entries := recordsTwo.reverse }, none⟩ ∧
    ((App._getLocalStorage (App.initial true [] (some storedTwo))).error = none ∧
    ((App.initial true [] (some storedTwo)).storage = none →
      (App._getLocalStorage (App.initial true [] (some storedTwo))).state
        = App.initial true [] (some storedTwo)) ∧
    (∀ s v, (App.initial true [] (some storedTwo)).storage = some s →
      JSON.parse s = .ok v → v.truthy = false →
      (App._getLocalStorage (App.initial true [] (some storedTwo))).state
        = App.initial true [] (some storedTwo)) ∧
    (∀ s rs, (App.initial true [] (some storedTwo)).storage = some s →
      JSON.parse s = .ok (.array rs) →
      (App._getLocalStorage (App.initial true [] (some storedTwo))).state
        = { App.initial true [] (some storedTwo) with
            workouts := .array rs,
            entries := rs.reverse ++ (App.initial true [] (some storedTwo)).entries })) :=
  ⟨⟨rfl, parse_storedTwo, fun r hr => (recordsTwo_plain r hr).1⟩, by rfl,
    getLocalStorage_returns (App.initial true [] (some storedTwo))
      (Or.inr (Or.inr ⟨storedTwo, recordsTwo, rfl, parse_storedTwo,
        fun r hr => (recordsTwo_plain r hr).1⟩))⟩

/-- C7 fails as stated: a stored item that is not JSON makes `_getLocalStorage`
throw the SyntaxError of `JSON.parse`, and a stored array whose record has an
object without a string for `id` makes it throw the TypeError of the template. -/
theorem getLocalStorage_throws_on_bad_json :
    App._getLocalStorage (App.initial true [] (some storedBroken))
      = ⟨App.initial true [] (some storedBroken), some .syntaxError⟩ ∧
    JSON.parse storedNoString
      = .ok (.array [.object [("id", .object [("toString", .number (.ofNat 1))])]]) ∧
    (App._getLocalStorage (App.initial true [] (some storedNoString))).error
      = some .typeError := by
  refine ⟨by rfl, by rfl, by rfl⟩

/-- C8 (as the code has it): when the stored item is the JSON text of `n` plain
records `rs` that each have a position, startup renders `rs` into the list, one
entry per record in stored order (each put right after the form, so the list
reads in reverse), and the position callback at finite coordinates then adds
the markers of `rs`, one per record in stored order, to the new map. -/
theorem startup_replays_records (rt : Runtime) (formHidden : Bool) (entries : List JSValue)
    (s : String) (rs : List JSValue) (n : ℕ) (latitude longitude : JSNumber)
    (hparse : JSON.parse s = .ok (.array rs))
    (hrec : ∀ r ∈ rs, IsPlainRecord r ∧ HasPosition r)
    (hpos : latitude.isFinite = true ∧ longitude.isFinite = true)
    (hn : rs.length = n) :
    (App.new formHidden entries (some s)).error = none ∧
    (App.new formHidden entries (some s)).state.entries = rs.reverse ++ entries ∧
    (App._loadMap rt latitude longitude (App.new formHidden entries (some s)).state).error
      = none ∧
    (App._loadMap rt latitude longitude
      (App.new formHidden entries (some s)).state).state.entries = rs.reverse ++ entries ∧
    (App._loadMap rt latitude longitude (App.new formHidden entries (some s)).state).state.map
      = some ⟨.array [.number latitude, .number longitude], 13, rs⟩ ∧
    (App._loadMap rt latitude longitude
      (App.new formHidden entries (some s)).state).state.entries.length = n + entries.length := by
  have h1 : App.new formHidden entries (some s)
      = ⟨{ App.initial formHidden entries (some s) with
            workouts := .array rs, entries := rs.reverse ++ entries }, none⟩ := by
    rw [app_new_eq, getLocalStorage_array _ s rs rfl hparse (fun r hr => (hrec r hr).1)]
    rfl
  have h2 : App._loadMap rt latitude longitude (App.new formHidden entries (some s)).state
      = ⟨{ App.initial formHidden entries (some s) with
            workouts := .array rs, entries := rs.reverse ++ entries,
            map := some ⟨.array [.number latitude, .number longitude], 13, rs⟩ }, none⟩ := by
    rw [h1]
    simp only [App._loadMap, App.acceptsPosition, App.isPosition, hpos.1, hpos.2, Bool.and_self,
      if_true, Bool.not_true, Bool.false_eq_true, if_false]
    rw [forEach_renderWorkoutMarker rt rs _ _ rfl hrec]
    simp [App.initial]
  rw [h2, h1]
  refine ⟨rfl, rfl, rfl, rfl, rfl, ?_⟩
  simp [hn]

/-- The stored item `storedTwo`, with its two records, and the position
`[39, -12]` meet the conditions of C8. -/
theorem startup_replays_records_witness :
    (JSON.parse storedTwo = .ok (.array recordsTwo) ∧
      (∀ r ∈ recordsTwo, IsPlainRecord r ∧ HasPosition r) ∧
      ((JSNumber.ofNat 39).isFinite = true ∧ (JSNumber.ofDecimal true 12 0).isFinite = true) ∧
      recordsTwo.length = 2) ∧
    ((App.new true [] (some storedTwo)).error = none ∧
    (App.new true [] (some storedTwo)).state.entries = recordsTwo.reverse ++ [] ∧
    (App._loadMap sampleRuntime (.ofNat 39) (.ofDecimal true 12 0)
      (App.new true [] (some storedTwo)).state).error = none ∧
    (App._loadMap sampleRuntime (.ofNat 39) (.ofDecimal true 12 0)
      (App.new true [] (some storedTwo)).state).state.entries = recordsTwo.reverse ++ [] ∧
    (App._loadMap sampleRuntime (.ofNat 39) (.ofDecimal true 12 0)
      (App.new true [] (some storedTwo)).state).state.map
      = some ⟨.array [.number (.ofNat 39), .number (.ofDecimal true 12 0)], 13, recordsTwo⟩ ∧
    (App._loadMap sampleRuntime (.ofNat 39) (.ofDecimal true 12 0)
      (App.new true [] (some storedTwo)).state).state.entries.length
      = 2 + ([] : List JSValue).length) :=
  ⟨⟨parse_storedTwo, recordsTwo_plain, by decide, rfl⟩,
    startup_replays_records sampleRuntime true [] storedTwo recordsTwo 2 (.ofNat 39)
      (.ofDecimal true 12 0) parse_storedTwo recordsTwo_plain (by decide) rfl⟩

/-- C8 fails as stated: for the stored item `storedNoCords`, whose first of two
records has no `cords`, startup renders both entries, but the position callback
ends in the exception Leaflet throws for the first marker, so the second record
gets no marker call; and for `storedNoString`, whose record has an object
without a string for `id`, startup itself ends in a TypeError at the first
entry. -/
theorem startup_marker_throws_without_cords :
    JSON.parse storedNoCords = .ok (.array recordsNoCords) ∧
    App.new true [] (some storedNoCords)
      = ⟨{ App.initial true [] (some storedNoCords) with
            workouts := .array recordsNoCords, entries := recordsNoCords.reverse }, none⟩ ∧
    (App._loadMap sampleRuntime (.ofNat 39) (.ofDecimal true 12 0)
        (App.new true [] (some storedNoCords)).state).error = some .leaflet ∧
    (App.new true [] (some storedNoString)).error = some .typeError ∧
    (App.new true [] (some storedNoString)).state.entries = [] := by
  refine ⟨by rfl, by rfl, by rfl, by rfl, by rfl⟩

/-- C9: in a state whose collection is `ws`, a submission that is accepted (a
click is pending on an initialised map, the fields pass the check of their type)
and produces the workout `w` leaves the collection `ws` with `w` appended, and
the stored item is the serialization of that whole collection. -/
theorem newWorkout_appends_and_persists (rt : Runtime) (date : JSDate) (now : ℕ)
    (inp : FormInput) (st : State) (ev : LatLng) (m : LeafletMap) (ws : List JSValue)
    (w : JSValue) (hws : st.workouts = .array ws) (hev : st.mapEvent = some ev)
    (hmap : st.map = some m)
    (hacc : (inp.type = "running" ∧ RunningValid inp ∧
        Running.new rt date now (cordsOf ev) inp.distance inp.duration inp.cadence = .ok w) ∨
      (inp.type = "cycling" ∧ CyclingValid inp ∧
        Cycling.new rt date now (cordsOf ev) inp.distance inp.duration inp.elevation = .ok w)) :
    (App._newWorkout rt date now inp st).error = none ∧
    (App._newWorkout rt date now inp st).state.workouts = .array (ws ++ [w]) ∧
    (App._newWorkout rt date now inp st).state.storage
      = some (rt.stringify (.array (ws ++ [w]))) := by
  rcases hacc with ⟨htype, hval, hnew⟩ | ⟨htype, hval, hnew⟩
  · rw [newWorkout_of_valid_running rt date now inp st ev m ws w htype hev hmap hws hval hnew]
    exact ⟨rfl, rfl, rfl⟩
  · rw [newWorkout_of_valid_cycling rt date now inp st ev m ws w htype hev hmap hws hval hnew]
    exact ⟨rfl, rfl, rfl⟩

/-- The submission `sampleRunning` in `busyState` meets the conditions of C9: the
collection holds the two records of `storedTwo`, which is also the stored item;
after the call the collection is those two followed by `sampleRunningWorkout`,
and the stored item is `storedThree`, the JSON text of all three. -/
theorem newWorkout_appends_and_persists_witness :
    (busyState.workouts = .array recordsTwo ∧ busyState.mapEvent = some sampleClick ∧
      busyState.map = some mapTwo ∧ sampleRunning.type = "running" ∧
      RunningValid sampleRunning ∧
      Running.new sampleRuntime sampleDate 1710400000000 (cordsOf sampleClick)
        sampleRunning.distance sampleRunning.duration sampleRunning.cadence
        = .ok sampleRunningWorkout) ∧
    (busyState.storage = some storedTwo ∧
      sampleRuntime.stringify (.array recordsTwo) = storedTwo ∧
      sampleRuntime.stringify (.array (recordsTwo ++ [sampleRunningWorkout])) = storedThree ∧
      storedThree ≠ storedTwo) ∧
    ((App._newWorkout sampleRuntime sampleDate 1710400000000 sampleRunning busyState).error
      = none ∧
    (App._newWorkout sampleRuntime sampleDate 1710400000000 sampleRunning
      busyState).state.workouts = .array (recordsTwo ++ [sampleRunningWorkout]) ∧
    (App._newWorkout sampleRuntime sampleDate 1710400000000 sampleRunning
      busyState).state.storage
      = some (sampleRuntime.stringify (.array (recordsTwo ++ [sampleRunningWorkout])))) :=
  ⟨⟨rfl, rfl, rfl, rfl, sampleRunning_valid, rfl⟩,
    ⟨rfl, stringify_recordsTwo, stringify_three, storedThree_ne⟩,
    newWorkout_appends_and_persists sampleRuntime sampleDate 1710400000000 sampleRunning
      busyState sampleClick mapTwo recordsTwo sampleRunningWorkout rfl rfl rfl
      (Or.inl ⟨rfl, sampleRunning_valid, rfl⟩)⟩

/-- C10 (as the code has it): the id is the last ten characters of the decimal
timestamp, so for creation times from `10^9` ms on (ten digits or more) two
workouts get the same id exactly when their creation times agree modulo `10^10`;
workouts created at different milliseconds less than `10^10` ms apart get
different ids.  Resolving an id in a collection yields the first member that
carries it: of two members with the ids of the times `t₁` and `t₂`, the id of
the second finds the first when the times agree modulo `10^10`, and the second
otherwise. -/
theorem workout_id_eq_iff (t₁ t₂ : ℕ) (h₁ : 10 ^ 9 ≤ t₁) (h₂ : 10 ^ 9 ≤ t₂) :
    (Workout.id t₁ = Workout.id t₂ ↔ t₁ % 10 ^ 10 = t₂ % 10 ^ 10) ∧
    (t₁ ≠ t₂ → t₁ < t₂ + 10 ^ 10 → t₂ < t₁ + 10 ^ 10 → Workout.id t₁ ≠ Workout.id t₂) ∧
    (∀ (pre post : List JSValue) (w : JSValue) (id : String),
      (∀ x ∈ pre, x.isNullish = false ∧ (x.get "id").strictEqString id = false) →
      w.isNullish = false → (w.get "id").strictEqString id = true →
      App.findById id (pre ++ w :: post) = .ok w) ∧
    (∀ (w₁ w₂ : JSValue), w₁.isNullish = false → w₂.isNullish = false →
      w₁.get "id" = .string (Workout.id t₁) → w₂.get "id" = .string (Workout.id t₂) →
      App.findById (Workout.id t₁) [w₁, w₂] = .ok w₁ ∧
      App.findById (Workout.id t₂) [w₁, w₂]
        = .ok (if t₁ % 10 ^ 10 = t₂ % 10 ^ 10 then w₁ else w₂)) := by
  have hiff : Workout.id t₁ = Workout.id t₂ ↔ t₁ % 10 ^ 10 = t₂ % 10 ^ 10 := by
    rw [workout_id_eq_lowDigits h₁, workout_id_eq_lowDigits h₂, ← lowDigits_eq_iff]
    constructor
    · intro h; exact congrArg String.data h
    · intro h; rw [h]
  refine ⟨hiff, fun hne hlt hgt heq => hne ?_, ?_, ?_⟩
  · have hmod := hiff.mp heq
    norm_num at hmod hlt hgt
    omega
  · intro pre post w id hpre hw hid
    induction pre with
    | nil => simp [App.findById, hw, hid]
    | cons x xs ih =>
      obtain ⟨hx1, hx2⟩ := hpre x (List.mem_cons_self _ _)
      simp only [List.cons_append, App.findById, hx1, hx2, Bool.false_eq_true, if_false]
      exact ih (fun y hy => hpre y (List.mem_cons_of_mem _ hy))
  · intro w₁ w₂ hw₁ hw₂ hid₁ hid₂
    constructor
    · simp [App.findById, hw₁, hid₁, JSValue.strictEqString]
    · by_cases hmod : t₁ % 10 ^ 10 = t₂ % 10 ^ 10
      · have heq := hiff.mpr hmod
        rw [if_pos hmod]
        simp [App.findById, hw₁, hid₁, JSValue.strictEqString, heq]
      · have hne : ¬ Workout.id t₁ = Workout.id t₂ := fun h => hmod (hiff.mp h)
        rw [if_neg hmod]
        simp [App.findById, hw₁, hw₂, hid₁, hid₂, JSValue.strictEqString, hne]

/-- The creation times 1700000000000 and 1709999999999, which are different and
less than `10^10` ms apart, meet the conditions of C10 as the code has it; their
ids are `0000000000` and `9999999999`. -/
theorem workout_id_eq_iff_witness :
    ((10 : ℕ) ^ 9 ≤ 1700000000000 ∧ (10 : ℕ) ^ 9 ≤ 1709999999999) ∧
    ((1700000000000 : ℕ) ≠ 1709999999999 ∧ (1700000000000 : ℕ) < 1709999999999 + 10 ^ 10 ∧
      (1709999999999 : ℕ) < 1700000000000 + 10 ^ 10) ∧
    (Workout.id 1700000000000 = "0000000000" ∧ Workout.id 1709999999999 = "9999999999") ∧
    ((Workout.id 1700000000000 = Workout.id 1709999999999 ↔
      1700000000000 % 10 ^ 10 = 1709999999999 % 10 ^ 10) ∧
    ((1700000000000 : ℕ) ≠ 1709999999999 → 1700000000000 < 1709999999999 + 10 ^ 10 →
      1709999999999 < 1700000000000 + 10 ^ 10 →
      Workout.id 1700000000000 ≠ Workout.id 1709999999999) ∧
    (∀ (pre post : List JSValue) (w : JSValue) (id : String),
      (∀ x ∈ pre, x.isNullish = false ∧ (x.get "id").strictEqString id = false) →
      w.isNullish = false → (w.get "id").strictEqString id = true →
      App.findById id (pre ++ w :: post) = .ok w) ∧
    (∀ (w₁ w₂ : JSValue), w₁.isNullish = false → w₂.isNullish = false →
      w₁.get "id" = .string (Workout.id 1700000000000) →
      w₂.get "id" = .string (Workout.id 1709999999999) →
      App.findById (Workout.id 1700000000000) [w₁, w₂] = .ok w₁ ∧
      App.findById (Workout.id 1709999999999) [w₁, w₂]
        = .ok (if 1700000000000 % 10 ^ 10 = 1709999999999 % 10 ^ 10 then w₁ else w₂))) :=
  ⟨by decide, by decide, by decide,
    workout_id_eq_iff 1700000000000 1709999999999 (by decide) (by decide)⟩

/-- C10 fails as stated: two workouts created `10^10` ms apart (14 November 2023
and 9 March 2024) and held in one collection have the same id, and resolving that
id finds the earlier one only. -/
theorem workout_id_collision :
    (1700000000000 : ℕ) ≠ 1710000000000 ∧
    workoutNovember.get "id" = .string "0000000000" ∧
    workoutMarch.get "id" = .string "0000000000" ∧
    workoutNovember.get "duration" = .number (.ofNat 30) ∧
    workoutMarch.get "duration" = .number (.ofNat 45) ∧
    App.findById "0000000000" [workoutNovember, workoutMarch] = .ok workoutNovember := by
  refine ⟨by decide, rfl, rfl, rfl, rfl, rfl⟩

end Mapty
